import Mathlib

/-!
Verification development for the sorter engine (`slib/sdir.py`).

The Python code is shallowly embedded: the filesystem is an explicit state
(lists of file paths and directory paths, absolute POSIX-style strings),
every `os`/`shutil` primitive used by the code is modelled as a pure
function on that state, and each method of `Directory` / `File` / `Folder` /
`CustomFolder` / `CustomFile` becomes a Lean function that threads the
filesystem state and returns `Option` where the Python code can raise an
exception that the method does not catch.

External collaborators that are not part of the repository's source are
parameters of the embedding:
  * the classification table `typeGroups` (an ordered association list from
    category name to its list of extension tokens, modelling the Python
    `dict`) and the flattened token list `typeList`;
  * the hash used by the rename fallback (`hashlib.md5(...).hexdigest()`),
    modelled as an arbitrary function `md5 : String → String`;
  * the marker filename `SORTER_IGNORE_FILENAME`.
The Python recursion limit (`RuntimeError`) is modelled by an explicit fuel
argument on the recursive rename resolver.  The embedding models the POSIX
(`os.name != 'nt'`) code paths; characters are treated as ASCII, matching
the repository's data.
-/

/-! ### Path strings

`os.path` primitives, modelled on POSIX semantics with `/` as separator.
All functions work on `List Char` internally.  `os.path.splitext` is only
ever applied to basenames in the source, so it is modelled for strings
without separators.
-/

/-- Characters of a string. -/
def strL (s : String) : List Char := s.data

/-- String from characters. -/
def strOf (l : List Char) : String := String.mk l

/-- `os.path.basename`: the part after the last slash. -/
def basenameS (p : String) : String :=
  strOf (((strL p).reverse.takeWhile (fun c => c ≠ '/')).reverse)

/-- `os.path.dirname`: everything before the last slash, with trailing
slashes stripped unless the result consists only of slashes. -/
def dirnameS (p : String) : String :=
  let rest := (strL p).reverse.dropWhile (fun c => c ≠ '/')
  if rest = [] then strOf []
  else
    let stripped := rest.dropWhile (fun c => c = '/')
    if stripped = [] then strOf rest.reverse else strOf stripped.reverse

/-- `os.path.join a b` for a single relative or absolute component `b`. -/
def joinP (a b : String) : String :=
  if (strL b).head? = some '/' then b
  else if a = "" then b
  else if (strL a).getLast? = some '/' then a ++ b
  else a ++ "/" ++ b

/-- `os.path.splitext` on a basename: split before the last dot that has at
least one non-dot character somewhere before it (so leading dots never
start an extension). -/
def pySplitext (name : String) : String × String :=
  let cs := strL name
  let tail := cs.reverse.takeWhile (fun c => c ≠ '.')
  if tail.length = cs.length then (name, strOf [])
  else
    let root := cs.take (cs.length - tail.length - 1)
    if root.any (fun c => c ≠ '.') then
      (strOf root, strOf (cs.drop (cs.length - tail.length - 1)))
    else (name, strOf [])

/-- `str.startswith` for plain prefixes. -/
def startsWithS (s pre : String) : Bool :=
  (strL pre).isPrefixOf (strL s)

/-- `str.upper` (ASCII). -/
def pyUpper (s : String) : String := strOf ((strL s).map Char.toUpper)

/-- `str.isupper` (ASCII): at least one letter, and no lowercase letter. -/
def pyIsUpper (s : String) : Bool :=
  (strL s).any Char.isAlpha && !((strL s).any Char.isLower)

/-- Helper for `str.title`: the boolean records whether the previous
character was a letter. -/
def pyTitleGo (prevAlpha : Bool) : List Char → List Char
  | [] => []
  | c :: cs =>
    if c.isAlpha then
      (if prevAlpha then c.toLower else c.toUpper) :: pyTitleGo true cs
    else c :: pyTitleGo false cs

/-- `str.title` (ASCII). -/
def pyTitle (s : String) : String := strOf (pyTitleGo false (strL s))

/-- Split a character list on `'/'`, like Python `str.split('/')`. -/
def splitSeg : List Char → List (List Char)
  | [] => [[]]
  | c :: rest =>
    if c = '/' then [] :: splitSeg rest
    else
      match splitSeg rest with
      | s :: ss => (c :: s) :: ss
      | [] => [[c]]

/-- Rejoin segments with `'/'` (inverse of `splitSeg`). -/
def joinSegsC : List (List Char) → List Char
  | [] => []
  | [s] => s
  | s :: ss => s ++ '/' :: joinSegsC ss

/-- `p` together with all its ancestor paths, derived from its segments
(used to model `os.makedirs`); the empty and root segments are dropped. -/
def pathPrefixes (p : String) : List String :=
  let segs := splitSeg (strL p)
  ((List.range segs.length).map
    (fun i => strOf (joinSegsC (segs.take (i + 1))))).filter
    (fun q => q ≠ "" && q ≠ "/")

/-! ### The filesystem state -/

/-- A filesystem: the set of regular-file paths and directory paths that
exist, as lists of absolute paths. -/
structure FS where
  files : List String
  dirs : List String
deriving DecidableEq, Repr

/-- `os.path.isfile`. -/
def isfile (fs : FS) (p : String) : Bool := fs.files.contains p

/-- `os.path.isdir`. -/
def isdir (fs : FS) (p : String) : Bool := fs.dirs.contains p

/-- `os.path.exists`. -/
def pyexists (fs : FS) (p : String) : Bool := isfile fs p || isdir fs p

/-- `q` is strictly inside the directory `p`. -/
def isUnderP (p q : String) : Bool :=
  (strL p ++ ['/']).isPrefixOf (strL q)

/-- Add a file path (used for `open(..., 'w+')`: creating or truncating a
file leaves the set of existing paths with that path present once). -/
def addFileFS (fs : FS) (p : String) : FS :=
  if fs.files.contains p then fs else { fs with files := p :: fs.files }

/-- `os.mkdir` guarded by `if not os.path.isdir(...)` as in the source:
succeeds if the directory already exists, creates it when the parent
directory exists and nothing else occupies the path, and otherwise fails
(`FileNotFoundError` / `FileExistsError`, which the source does not catch). -/
def mkdirIfAbsent (fs : FS) (d : String) : Option FS :=
  if isdir fs d then some fs
  else if isdir fs (dirnameS d) && !pyexists fs d then
    some { fs with dirs := d :: fs.dirs }
  else none

/-- `os.makedirs(p, exist_ok=True)`: create `p` and all missing ancestors. -/
def makedirs (fs : FS) (p : String) : FS :=
  { fs with
    dirs := (pathPrefixes p).foldl
      (fun ds q => if ds.contains q then ds else q :: ds) fs.dirs }

/-- Rewrite a path when the tree rooted at `src` is renamed to `dst`. -/
def rebaseP (src dst p : String) : String :=
  if p = src then dst
  else if isUnderP src p then strOf (strL dst ++ (strL p).drop (strL src).length)
  else p

/-- Rename the whole tree rooted at `src` to `dst`. -/
def renameTree (fs : FS) (src dst : String) : FS :=
  { files := fs.files.map (rebaseP src dst),
    dirs := fs.dirs.map (rebaseP src dst) }

/-- Everything that would make `os.rmdir` fail with "directory not empty". -/
def dirNonEmpty (fs : FS) (p : String) : Bool :=
  fs.files.any (fun q => isUnderP p q) || fs.dirs.any (fun q => isUnderP p q)

/-- `os.rmdir` wrapped in `try ... except OSError`: removes the directory
only when it exists and is empty; any failure is caught (and reported),
leaving the state unchanged. -/
def rmdirTry (fs : FS) (p : String) : FS :=
  if isdir fs p && !dirNonEmpty fs p then
    { fs with dirs := fs.dirs.erase p }
  else fs

/-- `shutil.move`: when `dst` is an existing directory the source is moved
inside it (failing if the target path already exists); otherwise the source
is renamed to `dst` (overwriting an existing file when the source is a
file; failing when a directory is renamed onto an existing file or into a
missing parent).  Returns the new state and the path actually created. -/
def shutilMove (fs : FS) (src dst : String) : Option (FS × String) :=
  let real := if isdir fs dst then joinP dst (basenameS src) else dst
  if isfile fs src then
    if isdir fs dst && pyexists fs real then none
    else some (addFileFS { fs with files := fs.files.erase src } real, real)
  else if isdir fs src then
    if isdir fs dst then
      if pyexists fs real then none else some (renameTree fs src real, real)
    else if isfile fs dst then none
    else if !isdir fs (dirnameS dst) then none
    else some (renameTree fs src dst, real)
  else none

/-! ### The classifier (external table) and `sdir.py` helpers -/

/-- `has_signore_file(path, filename)`: the marker file exists inside
`path` (the source only distinguishes `FileNotFoundError`). -/
def has_signore_file (fs : FS) (path : String) (filename : String) : Bool :=
  isfile fs (joinP path filename)

/-- `File.get_category`: upper-case the extension and return the first
category of `typeGroups` whose token set contains it, else `"UNDEFINED"`;
an empty extension is immediately `"UNDEFINED"`. -/
def getCategory (tg : List (String × List String)) (extension : String) : String :=
  if extension = "" then "UNDEFINED"
  else
    match tg.find? (fun kv => kv.2.contains (pyUpper extension)) with
    | some kv => kv.1
    | none => "UNDEFINED"

/-- `File._get_extension`: the `splitext` extension of the name without its
dot, or `"undefined"` when that is empty. -/
def pyGetExtension (name : String) : String :=
  let result := strOf ((strL (pySplitext name).2).drop 1)
  if result = "" then "undefined" else result

/-- `Directory.in_hidden_path` (POSIX branch): some prefix of the path has
a basename starting with `.` or `__`. -/
def inHiddenPath (p : String) : Bool :=
  let parts := (splitSeg (strL p)).map strOf
  (List.range (parts.length + 1)).any (fun i =>
    let path := String.intercalate ("/") (parts.take i)
    startsWithS (basenameS path) (".") || startsWithS (basenameS path) ("__"))

/-- `Folder.is_sorter_folder`: an existing directory whose basename either
is `isupper()` and occurs in `typeList` or equals `"FOLDERS"`, or is not
`isupper()` and occurs among the category names. -/
def is_sorter_folder (tg : List (String × List String)) (tl : List String)
    (fs : FS) (path : String) : Bool :=
  if isdir fs path then
    let dirname_ := basenameS path
    if pyIsUpper dirname_ then dirname_ ∈ tl || dirname_ = "FOLDERS"
    else (tg.map Prod.fst).contains dirname_
  else false

/-! ### The duplicate-name resolver (`File.find_suitable_name`)

The compiled pattern is `re.compile(r'\-\sdup[\s\(\d\)]+')`: a hyphen, one
whitespace character, the literal `dup`, then one or more characters among
whitespace, parentheses and digits.  `re.sub` replaces every
non-overlapping occurrence, scanning left to right with the character
class matched greedily.
-/

/-- Python `\s` on ASCII. -/
def pyWhitespace (c : Char) : Bool :=
  c = ' ' || c = '\t' || c = '\n' || c.val = 11 || c.val = 12 || c.val = 13

/-- The character class `[\s\(\d\)]`. -/
def isDupClassChar (c : Char) : Bool :=
  pyWhitespace c || c.isDigit || c = '(' || c = ')'

/-- Does the pattern `\-\sdup[\s\(\d\)]` match at the head of the list?
If so, return the characters after the first matched class character (the
rest of the greedy class run is consumed by the caller's skip state). -/
def matchDupHead : List Char → Option (List Char)
  | '-' :: w :: 'd' :: 'u' :: 'p' :: d :: rest =>
    if pyWhitespace w && isDupClassChar d then some rest else none
  | _ => none

/-- One left-to-right pass of `re.sub` for the duplicate-suffix pattern.
The boolean is true while consuming the (greedy) tail of a match.  The
`Nat` argument is structural-recursion fuel; every step consumes at least
one character, so fuel equal to the list length is always sufficient and
the fuel-exhausted case is unreachable from `reSubDup`. -/
def reSubDupGo (repl : List Char) : Nat → Bool → List Char → List Char
  | 0, _, l => l
  | _ + 1, _, [] => []
  | fuel + 1, skip, c :: cs =>
    if skip && isDupClassChar c then reSubDupGo repl fuel true cs
    else
      match matchDupHead (c :: cs) with
      | some rest => repl ++ reSubDupGo repl fuel true rest
      | none => c :: reSubDupGo repl fuel false cs

/-- `re.sub(File.filename_pattern, repl, s)`. -/
def reSubDup (repl : String) (s : String) : String :=
  strOf (reSubDupGo (strL repl) (strL s).length false (strL s))

/-- The new filename proposed for a colliding `filename` at attempt
`count`: on the first attempt the literal suffix is appended before the
extension, afterwards the existing suffix is rewritten by `re.sub`. -/
def dupName (filename : String) (count : Nat) : String :=
  let split_data := pySplitext filename
  if count = 1 then
    split_data.1 ++ " - dup (" ++ toString count ++ ")" ++ split_data.2
  else reSubDup ("- dup (" ++ toString count ++ ")") filename

/-- The full path tried next by `find_suitable_name`. -/
def dupCandidate (file_path : String) (count : Nat) : String :=
  joinP (dirnameS file_path) (dupName (basenameS file_path) count)

/-- `File.find_suitable_name(file_path, count)`.  `fuel` is the remaining
recursion depth: a call with no fuel left models the `RuntimeError` raised
at the recursion limit.  The recursive call is wrapped in
`try ... except RuntimeError`, which falls back to the hex digest of the
md5 hash of the conflicting filename. -/
def findSuitableName (md5 : String → String) (fs : FS) :
    Nat → String → Nat → Except Unit String
  | 0, _, _ => .error ()
  | fuel + 1, file_path, count =>
    let filename := basenameS file_path
    if pyexists fs file_path then
      match findSuitableName md5 fs fuel (dupCandidate file_path count) (count + 1) with
      | .ok n => .ok n
      | .error _ => .ok (md5 filename)
    else .ok filename

/-! ### `File` instances -/

/-- The derived attributes of a `File` (or `CustomFile`) instance.  `ex`
models the `exists` attribute. -/
structure PyFile where
  path : String
  name : String
  parent : String
  hidden_path : Bool
  extension : String
  category : String
  ex : Bool
deriving DecidableEq, Repr

/-- `File.__init__` / `File._set_path`: all derived attributes recomputed
from the path (and the current filesystem, for `exists`). -/
def mkPyFile (tg : List (String × List String)) (fs : FS) (path : String) : PyFile :=
  let name := basenameS path
  let extension := pyGetExtension name
  { path := path, name := name, parent := dirnameS path,
    hidden_path := inHiddenPath path, extension := extension,
    category := getCategory tg extension, ex := isfile fs path }

/-- `CustomFile.__init__` / `CustomFile._set_path`: `get_category` is
overridden to return the title-cased group folder name. -/
def mkCustomFile (fs : FS) (path : String) (group_folder_name : String) : PyFile :=
  let name := basenameS path
  { path := path, name := name, parent := dirnameS path,
    hidden_path := inHiddenPath path, extension := pyGetExtension name,
    category := pyTitle group_folder_name, ex := isfile fs path }

/-- `File._set_extension_destination` (also inherited by `CustomFile` and
overridden only by `CustomFileWithoutExtension`): create the category
folder (when grouping) and the extension folder if missing, then resolve a
collision-free name for the file inside the extension folder.  `none`
models an uncaught exception (`os.mkdir` failure or the resolver's
recursion limit escaping at top level). -/
def setExtensionDestination (md5 : String → String) (fuel : Nat)
    (fs : FS) (f : PyFile) (root_path : String) (group : Bool) :
    Option (FS × String) :=
  let pre : Option (FS × String) :=
    if group then
      let group_dst := joinP root_path f.category
      match mkdirIfAbsent fs group_dst with
      | none => none
      | some fs1 => some (fs1, joinP group_dst (pyUpper f.extension))
    else some (fs, joinP root_path (pyUpper f.extension))
  match pre with
  | none => none
  | some (fs1, extension_dst) =>
    match mkdirIfAbsent fs1 extension_dst with
    | none => none
    | some fs2 =>
      let new_dst := joinP extension_dst f.name
      match findSuitableName md5 fs2 fuel new_dst 1 with
      | .error _ => none
      | .ok suitable_name => some (fs2, joinP (dirnameS new_dst) suitable_name)

/-- `File.move_to(dst_root_path, group)` (and `CustomFile.move_to`, which
always passes `group=True`; the `rebuild` parameter is the class's
`_set_path` recomputation).  Returns the new filesystem, the updated
entry, and the list of file moves performed.  The `PermissionError`
handler is not reachable in this model (the modelled filesystem has no
permissions); `none` models any other uncaught exception. -/
def fileMoveTo (rebuild : FS → String → PyFile) (md5 : String → String)
    (fuel : Nat) (fs : FS) (f : PyFile) (dst_root_path : String)
    (group : Bool) : Option (FS × PyFile × List (String × String)) :=
  match setExtensionDestination md5 fuel fs f dst_root_path group with
  | none => none
  | some (fs1, final_destination) =>
    if dirnameS f.path = dirnameS final_destination then some (fs1, f, [])
    else
      match shutilMove fs1 f.path final_destination with
      | none => none
      | some (fs2, _) =>
        some (fs2, rebuild fs2 final_destination, [(f.path, final_destination)])

/-! ### `Folder` instances -/

/-- The derived attributes of a `Folder` instance. -/
structure PyFolder where
  path : String
  name : String
  parent : String
  hidden_path : Bool
  ex : Bool
  for_sorter : Bool
  category_folder : String
deriving DecidableEq, Repr

/-- `Folder.__init__` / `Folder._set_path`: derived attributes recomputed
from the path; the cached category folder is reset to the empty string. -/
def mkPyFolder (tg : List (String × List String)) (tl : List String)
    (fs : FS) (path : String) : PyFolder :=
  { path := path, name := basenameS path, parent := dirnameS path,
    hidden_path := inHiddenPath path, ex := isdir fs path,
    for_sorter := is_sorter_folder tg tl fs path, category_folder := "" }

/-- A `CustomFolder` instance: a `Folder` together with the (title-cased)
group folder name fixed at construction. -/
structure PyCustomFolder where
  base : PyFolder
  group_folder : String
deriving DecidableEq, Repr

/-- `CustomFolder.__init__`. -/
def mkPyCustomFolder (tg : List (String × List String)) (tl : List String)
    (fs : FS) (path : String) (group_folder_name : String) : PyCustomFolder :=
  { base := mkPyFolder tg tl fs path, group_folder := pyTitle group_folder_name }

/-- The list produced by
`[content for content in iglob(os.path.join(src, '*')) if os.path.isfile(content)]`:
the immediate regular files of `src`; glob's `*` does not match names
starting with a dot. -/
def globFiles (fs : FS) (src : String) : List String :=
  fs.files.filter (fun content =>
    decide (dirnameS content = src) && !startsWithS (basenameS content) ("."))

/-- The `for file_ in files:` loop shared by `Folder._move_contents` and
`CustomFolder._move_contents`: each path is wrapped in a fresh file entry
(built by `mkEntry` from the current filesystem) and moved; an uncaught
exception from any move aborts the loop (`none`).  Returns the final
filesystem and the concatenated move log. -/
def moveFilesLoop (mkEntry : FS → String → PyFile) (rebuild : FS → String → PyFile)
    (md5 : String → String) (fuel : Nat) (src root_path : String)
    (group_content : Bool) :
    FS → List String → Option (FS × List (String × String))
  | fs, [] => some (fs, [])
  | fs, file_ :: rest =>
    match fileMoveTo rebuild md5 fuel fs (mkEntry fs (joinP src file_)) root_path group_content with
    | none => none
    | some (fs1, _, log1) =>
      match moveFilesLoop mkEntry rebuild md5 fuel src root_path group_content fs1 rest with
      | none => none
      | some (fs2, log2) => some (fs2, log1 ++ log2)

/-- `Folder._move_contents(src, dst, root_path, group_content)`: move every
immediate regular file of `src` (folders are ignored; `dst` itself is not
used) to its classified destination under `root_path`. -/
def folderMoveContents (tg : List (String × List String))
    (md5 : String → String) (fuel : Nat) (fs : FS)
    (src _dst root_path : String) (group_content : Bool) :
    Option (FS × List (String × String)) :=
  moveFilesLoop (fun fs' p => mkPyFile tg fs' p) (fun fs' p => mkPyFile tg fs' p)
    md5 fuel src root_path group_content fs (globFiles fs src)

/-- `CustomFolder._move_contents`: as `Folder._move_contents` but each file
becomes a `CustomFile` carrying the group folder name. -/
def customFolderMoveContents (group_folder : String)
    (md5 : String → String) (fuel : Nat) (fs : FS)
    (src _dst root_path : String) (group_content : Bool) :
    Option (FS × List (String × String)) :=
  moveFilesLoop (fun fs' p => mkCustomFile fs' p group_folder)
    (fun fs' p => mkCustomFile fs' p group_folder)
    md5 fuel src root_path group_content fs (globFiles fs src)

/-- `Folder._move_to(dst, root_path, src, group_content)`: if `dst` is an
existing directory, relocate the immediate files of the source and try to
remove the source directory (failure to remove is caught and reported);
otherwise recreate the full `dst` path and `shutil.move` the source.  In
both cases the entry's path is set to `dst`, recomputing its attributes. -/
def folderMoveTo (tg : List (String × List String)) (tl : List String)
    (md5 : String → String) (fuel : Nat) (fs : FS) (folder : PyFolder)
    (dst root_path : String) (srcOpt : Option String) (group_content : Bool) :
    Option (FS × PyFolder × List (String × String)) :=
  let src := srcOpt.getD folder.path
  if isdir fs dst then
    match folderMoveContents tg md5 fuel fs src dst root_path group_content with
    | none => none
    | some (fs1, log) =>
      let fs2 := rmdirTry fs1 src
      some (fs2, mkPyFolder tg tl fs2 dst, log)
  else
    let fs1 := makedirs fs dst
    match shutilMove fs1 src dst with
    | none => none
    | some (fs2, real) => some (fs2, mkPyFolder tg tl fs2 dst, [(src, real)])

/-- `CustomFolder._move_to`: as `Folder._move_to`, but after merging into
an existing `dst` a marker file named `signore` is created inside `dst`
unless one is already there (the Windows hidden-attribute call is skipped
on POSIX), and the "dst does not exist" branch performs `shutil.move`
without recreating `dst` first. -/
def customFolderMoveTo (tg : List (String × List String)) (tl : List String)
    (md5 : String → String) (fuel : Nat) (signore : String) (fs : FS)
    (folder : PyCustomFolder) (dst root_path : String) (srcOpt : Option String)
    (group_content : Bool) :
    Option (FS × PyCustomFolder × List (String × String)) :=
  let src := srcOpt.getD folder.base.path
  if isdir fs dst then
    match customFolderMoveContents folder.group_folder md5 fuel fs src dst root_path group_content with
    | none => none
    | some (fs1, log) =>
      let fs2 :=
        if has_signore_file fs1 dst signore then fs1
        else addFileFS fs1 (joinP dst signore)
      let fs3 := rmdirTry fs2 src
      some (fs3, { base := mkPyFolder tg tl fs3 dst, group_folder := folder.group_folder }, log)
  else
    match shutilMove fs src dst with
    | none => none
    | some (fs1, real) =>
      some (fs1, { base := mkPyFolder tg tl fs1 dst, group_folder := folder.group_folder }, [(src, real)])

/-! ### Wellformedness predicates and claim-side definitions -/

/-- A clean path component: nonempty, without separators. -/
def cleanSeg (s : String) : Prop := strL s ≠ [] ∧ '/' ∉ strL s

instance (s : String) : Decidable (cleanSeg s) := by
  unfold cleanSeg; infer_instance

/-- A usable directory-path string: nonempty without a trailing slash. -/
def goodDir (s : String) : Prop := strL s ≠ [] ∧ (strL s).getLast? ≠ some '/'

instance (s : String) : Decidable (goodDir s) := by
  unfold goodDir; infer_instance

/-- What the embedding assumes about `hashlib.md5(...).hexdigest()`:
digests are nonempty strings of hex characters, hence clean path
components. -/
def goodHash (md5 : String → String) : Prop := ∀ s, cleanSeg (md5 s)

/-- The predicate claimed by the specification for `Folder.is_sorter_folder`
(C8, taken at its word): an existing directory whose upper-cased basename
is a known extension token or the literal `FOLDERS`, or whose basename
matches a known category name case-sensitively. -/
def claimedSorterFolder (tg : List (String × List String)) (tl : List String)
    (fs : FS) (path : String) : Prop :=
  isdir fs path = true ∧
    ((pyUpper (basenameS path) ∈ tl ∨ pyUpper (basenameS path) = "FOLDERS") ∨
      basenameS path ∈ tg.map Prod.fst)

instance (tg : List (String × List String)) (tl : List String) (fs : FS)
    (path : String) : Decidable (claimedSorterFolder tg tl fs path) := by
  unfold claimedSorterFolder; infer_instance

/-- The extension attribute claimed by the specification for a file entry
(C9, taken at its word): the lower-cased token after the last dot of the
name, or `"undefined"` when there is no dot. -/
def claimedExtension (name : String) : String :=
  if '.' ∈ strL name then
    strOf ((((strL name).reverse.takeWhile (fun c => c ≠ '.')).reverse).map Char.toLower)
  else "undefined"

/-! ### Concrete fixtures for witnesses and counterexamples -/

/-- A hash stand-in used by concrete witnesses. -/
def md5W (_ : String) : String := "d41d8cd98f"

/-- A table mapping the extension token `JPG` to category `IMAGE`. -/
def tgIMAGE : List (String × List String) := [("IMAGE", ["JPG"])]

/-- The flattened token list for `tgIMAGE`. -/
def tlIMAGE : List String := ["JPG"]

/-- A table with a lower-cased category name, for the classifier claims. -/
def tgLower : List (String × List String) := [("image", ["JPG"])]

/-- The flattened token list for `tgLower`. -/
def tlLower : List String := ["JPG"]

/-- Destination directory `/d` already holding `report.txt`. -/
def fsDupA : FS := { files := ["/d/report.txt"], dirs := ["/d"] }

/-- Destination directory `/d` holding `report.txt` and its first rename. -/
def fsDupB : FS :=
  { files := ["/d/report.txt", "/d/report - dup (1).txt"], dirs := ["/d"] }

/-- Fixture where the rename chain is fully occupied at depth one. -/
def fsFall : FS := { files := ["/d/a.txt", "/d/a - dup (1).txt"], dirs := ["/d"] }

/-- A file already sitting in its classified destination. -/
def fsInPlace : FS :=
  { files := ["/r/out/IMAGE/JPG/photo.jpg"],
    dirs := ["/r", "/r/out", "/r/out/IMAGE", "/r/out/IMAGE/JPG"] }

/-- The end-to-end example: `/r/a/photo.jpg` to be moved into `/r/out`. -/
def fsPhoto : FS := { files := ["/r/a/photo.jpg"], dirs := ["/r", "/r/a", "/r/out"] }

/-- A source folder with an immediate file and a populated subfolder,
merging into the existing `/r/out/FOLDERS`. -/
def fsMerge : FS :=
  { files := ["/r/a/x.jpg", "/r/a/sub/y.jpg"],
    dirs := ["/r", "/r/out", "/r/out/FOLDERS", "/r/a", "/r/a/sub"] }

/-- A source folder whose destination does not exist yet (fast path). -/
def fsFast : FS := { files := ["/r/a/x.txt"], dirs := ["/r", "/r/a"] }

/-- A source folder with a dot-file, merging into existing `/r/out/FOLDERS`. -/
def fsDotted : FS :=
  { files := ["/r/a/.hidden", "/r/a/x.jpg"],
    dirs := ["/r", "/r/out", "/r/out/FOLDERS", "/r/a"] }

/-- A custom-group source and an existing custom destination `/r/Docs`. -/
def fsCustom : FS :=
  { files := ["/r/g/a.jpg"], dirs := ["/r", "/r/g", "/r/Docs"] }

/-- A custom-group source whose destination `/r/Docs` does not exist. -/
def fsCustomFast : FS := { files := ["/r/g/a.jpg"], dirs := ["/r", "/r/g"] }

/-- The marker filename used by concrete fixtures. -/
def sigW : String := "sorter.sig"

/-! ### Basic lemmas about the path-string model -/

theorem strL_strOf (l : List Char) : strL (strOf l) = l := rfl

theorem strOf_strL (s : String) : strOf (strL s) = s := rfl

theorem strL_append (a b : String) : strL (a ++ b) = strL a ++ strL b :=
  String.data_append a b

theorem strL_eq_iff (a b : String) : a = b ↔ strL a = strL b := by
  constructor
  · intro h; rw [h]
  · intro h; cases a; cases b; simp only [strL] at h; rw [h]

theorem strL_empty_iff (s : String) : s = "" ↔ strL s = [] := by
  rw [strL_eq_iff]; rfl

theorem takeWhile_append_stop (p : Char → Bool) (l₁ l₂ : List Char) (a : Char)
    (h : ∀ x ∈ l₁, p x = true) (ha : p a = false) :
    (l₁ ++ a :: l₂).takeWhile p = l₁ := by
  induction l₁ with
  | nil => simp [List.takeWhile, ha]
  | cons c cs ih =>
    have hc : p c = true := h c (by simp)
    simp only [List.cons_append, List.takeWhile_cons, hc, if_true]
    rw [ih (fun x hx => h x (by simp [hx]))]

theorem dropWhile_append_stop (p : Char → Bool) (l₁ l₂ : List Char) (a : Char)
    (h : ∀ x ∈ l₁, p x = true) (ha : p a = false) :
    (l₁ ++ a :: l₂).dropWhile p = a :: l₂ := by
  induction l₁ with
  | nil => simp [List.dropWhile, ha]
  | cons c cs ih =>
    have hc : p c = true := h c (by simp)
    simp only [List.cons_append, List.dropWhile_cons, hc, if_true]
    exact ih (fun x hx => h x (by simp [hx]))

theorem joinP_eq_append (a b : String) (ha : strL a ≠ [])
    (hlast : (strL a).getLast? ≠ some '/') (hb : cleanSeg b) :
    strL (joinP a b) = strL a ++ '/' :: strL b := by
  have hbh : (strL b).head? ≠ some '/' := by
    intro h
    rcases hb with ⟨hne, hnm⟩
    cases hl : strL b with
    | nil => exact hne hl
    | cons c cs => rw [hl] at h; simp at h; exact hnm (by rw [hl, h]; simp)
  unfold joinP
  rw [if_neg hbh, if_neg (by rw [strL_empty_iff]; exact ha), if_neg hlast]
  show strL ((a ++ "/") ++ b) = _
  rw [strL_append, strL_append]
  simp [strL]


theorem basenameS_joinP (a b : String) (hb : cleanSeg b) :
    basenameS (joinP a b) = b := by
  obtain ⟨hne, hnm⟩ := hb
  have hball : ∀ x ∈ (strL b).reverse, (fun c => decide (c ≠ '/')) x = true := by
    intro x hx
    simp only [decide_eq_true_eq]
    intro h
    exact hnm (by rw [← h]; exact List.mem_reverse.1 hx)
  have hslash : (fun c => decide (c ≠ '/')) '/' = false := by simp
  have hbh : (strL b).head? ≠ some '/' := by
    intro h
    cases hl : strL b with
    | nil => exact hne hl
    | cons c cs =>
      rw [hl] at h
      simp only [List.head?_cons, Option.some.injEq] at h
      exact hnm (by rw [hl, h]; simp)
  have hself : (strL b).reverse.takeWhile (fun c => decide (c ≠ '/')) = (strL b).reverse :=
    List.takeWhile_eq_self_iff.2 hball
  unfold joinP basenameS
  rw [if_neg hbh]
  by_cases h2 : a = ""
  · rw [if_pos h2, hself, List.reverse_reverse]
    rfl
  · rw [if_neg h2]
    by_cases h3 : (strL a).getLast? = some '/'
    · rw [if_pos h3]
      obtain ⟨t, ht⟩ : ∃ t, (strL a).reverse = '/' :: t := by
        have hh := List.head?_reverse (strL a)
        rw [h3] at hh
        cases hrev : (strL a).reverse with
        | nil => rw [hrev] at hh; simp at hh
        | cons c cs =>
          rw [hrev] at hh
          simp only [List.head?_cons, Option.some.injEq] at hh
          exact ⟨cs, by rw [hh]⟩
      rw [strL_append, List.reverse_append, ht,
        takeWhile_append_stop _ _ _ _ hball hslash, List.reverse_reverse]
      rfl
    · rw [if_neg h3]
      have hsplit : strL (a ++ "/" ++ b) = strL a ++ '/' :: strL b := by
        rw [strL_append, strL_append]
        simp [strL]
      rw [hsplit]
      have : (strL a ++ '/' :: strL b).reverse = (strL b).reverse ++ '/' :: (strL a).reverse := by
        rw [List.reverse_append]
        simp
      rw [this, takeWhile_append_stop _ _ _ _ hball hslash, List.reverse_reverse]
      rfl

theorem joinP_getLast (a b : String) (hb : cleanSeg b) :
    strL (joinP a b) ≠ [] ∧ (strL (joinP a b)).getLast? = (strL b).getLast? := by
  obtain ⟨hne, hnm⟩ := hb
  have hbh : (strL b).head? ≠ some '/' := by
    intro h
    cases hl : strL b with
    | nil => exact hne hl
    | cons c cs =>
      rw [hl] at h
      simp only [List.head?_cons, Option.some.injEq] at h
      exact hnm (by rw [hl, h]; simp)
  unfold joinP
  rw [if_neg hbh]
  by_cases h2 : a = ""
  · rw [if_pos h2]; exact ⟨hne, rfl⟩
  · rw [if_neg h2]
    by_cases h3 : (strL a).getLast? = some '/'
    · rw [if_pos h3]
      constructor
      · rw [strL_append]; simp [hne]
      · rw [strL_append]; exact List.getLast?_append_of_ne_nil _ hne
    · rw [if_neg h3]
      have hsplit : strL (a ++ "/" ++ b) = strL a ++ '/' :: strL b := by
        rw [strL_append, strL_append]; simp [strL]
      constructor
      · rw [hsplit]; simp
      · rw [hsplit]
        have : strL a ++ '/' :: strL b = (strL a ++ ['/']) ++ strL b := by simp
        rw [this]
        exact List.getLast?_append_of_ne_nil _ hne


theorem joinP_goodDir (a b : String) (hb : cleanSeg b) : goodDir (joinP a b) := by
  obtain ⟨h1, h2⟩ := joinP_getLast a b hb
  refine ⟨h1, ?_⟩
  rw [h2]
  intro h
  exact hb.2 (List.mem_of_mem_getLast? h)

theorem dirnameS_joinP (a b : String) (ha : goodDir a) (hb : cleanSeg b) :
    dirnameS (joinP a b) = a := by
  obtain ⟨hane, halast⟩ := ha
  have hsplit : strL (joinP a b) = strL a ++ '/' :: strL b :=
    joinP_eq_append a b hane halast hb
  have hball : ∀ x ∈ (strL b).reverse, (fun c => decide (c ≠ '/')) x = true := by
    intro x hx
    simp only [decide_eq_true_eq]
    intro h
    exact hb.2 (by rw [← h]; exact List.mem_reverse.1 hx)
  have hrev : (strL (joinP a b)).reverse = (strL b).reverse ++ '/' :: (strL a).reverse := by
    rw [hsplit, List.reverse_append]
    simp
  unfold dirnameS
  rw [hrev, dropWhile_append_stop _ _ _ _ hball (by simp)]
  rw [if_neg (by simp)]
  obtain ⟨c, t, hct⟩ : ∃ c t, (strL a).reverse = c :: t := by
    cases hc : (strL a).reverse with
    | nil => exact absurd (by simpa using congrArg List.reverse hc) hane
    | cons c t => exact ⟨c, t, rfl⟩
  have hcne : c ≠ '/' := by
    intro h
    apply halast
    rw [← List.head?_reverse, hct, h]
    rfl
  rw [hct]
  have hstr : List.dropWhile (fun x => decide (x = '/')) ('/' :: c :: t) = c :: t := by
    simp [List.dropWhile_cons, hcne]
  rw [hstr, if_neg (by simp)]
  show strOf (c :: t).reverse = a
  rw [← hct, List.reverse_reverse]
  rfl

theorem length_joinP_lt (a b : String) (ha : strL a ≠ []) (hb : cleanSeg b) :
    (strL a).length < (strL (joinP a b)).length := by
  have hbh : (strL b).head? ≠ some '/' := by
    intro h
    cases hl : strL b with
    | nil => exact hb.1 hl
    | cons c cs =>
      rw [hl] at h
      simp only [List.head?_cons, Option.some.injEq] at h
      exact hb.2 (by rw [hl, h]; simp)
  have hbpos : 0 < (strL b).length := List.length_pos.2 hb.1
  unfold joinP
  rw [if_neg hbh, if_neg (by rw [strL_empty_iff]; exact ha)]
  by_cases h3 : (strL a).getLast? = some '/'
  · rw [if_pos h3, strL_append]
    simp only [List.length_append]
    omega
  · rw [if_neg h3]
    have hsplit : strL (a ++ "/" ++ b) = strL a ++ '/' :: strL b := by
      rw [strL_append, strL_append]; simp [strL]
    rw [hsplit]
    simp only [List.length_append, List.length_cons]
    omega

/-! ### Lemmas about the duplicate-name resolver -/

theorem digitChar_ne_slash (n : Nat) : Nat.digitChar n ≠ '/' := by
  match n with
  | 0 | 1 | 2 | 3 | 4 | 5 | 6 | 7 | 8 | 9 | 10 | 11 | 12 | 13 | 14 | 15 => decide
  | m + 16 =>
    have h : Nat.digitChar (m + 16) = '*' := by
      unfold Nat.digitChar
      iterate 16 rw [if_neg (by omega)]
    rw [h]; decide

theorem toDigitsCore_ne_slash (b : Nat) :
    ∀ fuel n ds, '/' ∉ ds → '/' ∉ Nat.toDigitsCore b fuel n ds := by
  intro fuel
  induction fuel with
  | zero => intro n ds h; simpa [Nat.toDigitsCore] using h
  | succ f ih =>
    intro n ds h
    simp only [Nat.toDigitsCore]
    split
    · intro hm
      rcases List.mem_cons.1 hm with h1 | h2
      · exact digitChar_ne_slash _ h1.symm
      · exact h h2
    · refine ih _ _ ?_
      intro hm
      rcases List.mem_cons.1 hm with h1 | h2
      · exact digitChar_ne_slash _ h1.symm
      · exact h h2

theorem toString_nat_ne_slash (n : Nat) : '/' ∉ strL (toString n) := by
  show '/' ∉ Nat.toDigitsCore 10 (n + 1) n []
  exact toDigitsCore_ne_slash 10 (n + 1) n [] (by simp)

theorem matchDupHead_sub (l rest : List Char) (h : matchDupHead l = some rest) :
    ∀ c ∈ rest, c ∈ l := by
  intro c hc
  unfold matchDupHead at h
  split at h
  · split at h
    · cases h
      simp only [List.mem_cons]
      tauto
    · exact absurd h (by simp)
  · exact absurd h (by simp)

theorem reSubDupGo_mem (repl : List Char) :
    ∀ fuel skip l c, c ∈ reSubDupGo repl fuel skip l → c ∈ repl ∨ c ∈ l := by
  intro fuel
  induction fuel with
  | zero => intro skip l c h; right; simpa [reSubDupGo] using h
  | succ f ih =>
    intro skip l c h
    cases l with
    | nil => simp [reSubDupGo] at h
    | cons a as =>
      rw [reSubDupGo] at h
      by_cases hsk : (skip && isDupClassChar a) = true
      · rw [if_pos hsk] at h
        rcases ih true as c h with h1 | h2
        · exact Or.inl h1
        · exact Or.inr (List.mem_cons_of_mem a h2)
      · rw [if_neg hsk] at h
        cases hm : matchDupHead (a :: as) with
        | some rest =>
          rw [hm] at h
          rcases List.mem_append.1 h with h1 | h2
          · exact Or.inl h1
          · rcases ih true rest c h2 with h3 | h4
            · exact Or.inl h3
            · exact Or.inr (matchDupHead_sub _ _ hm c h4)
        | none =>
          rw [hm] at h
          rcases List.mem_cons.1 h with h1 | h2
          · exact Or.inr (by simp [h1])
          · rcases ih false as c h2 with h3 | h4
            · exact Or.inl h3
            · exact Or.inr (List.mem_cons_of_mem _ h4)

theorem reSubDupGo_ne_nil (repl : List Char) (fuel : Nat) (l : List Char)
    (hl : l ≠ []) (hr : repl ≠ []) : reSubDupGo repl fuel false l ≠ [] := by
  cases fuel with
  | zero => simpa [reSubDupGo] using hl
  | succ f =>
    cases l with
    | nil => exact absurd rfl hl
    | cons a as =>
      rw [reSubDupGo]
      simp only [Bool.false_and, Bool.false_eq_true, if_false]
      cases hm : matchDupHead (a :: as) with
      | some rest => simp [hr]
      | none => simp

theorem pySplitext_sub (name : String) :
    (∀ c ∈ strL (pySplitext name).1, c ∈ strL name) ∧
    (∀ c ∈ strL (pySplitext name).2, c ∈ strL name) := by
  simp only [pySplitext]
  split
  · exact ⟨fun c hc => hc, fun c hc => by simp [strL, strOf] at hc⟩
  · split
    · constructor
      · intro c hc
        exact List.take_subset _ _ hc
      · intro c hc
        exact List.drop_subset _ _ hc
    · exact ⟨fun c hc => hc, fun c hc => by simp [strL, strOf] at hc⟩

theorem dupRepl_clean (c : Nat) : cleanSeg ("- dup (" ++ toString c ++ ")") := by
  constructor
  · rw [strL_append, strL_append]
    intro h
    have hlen := congrArg List.length h
    simp only [List.length_append, List.length_nil] at hlen
    have h7 : (strL ("- dup (")).length = 7 := by decide
    omega
  · rw [strL_append, strL_append]
    intro hm
    rcases List.mem_append.1 hm with hm1 | hm2
    · rcases List.mem_append.1 hm1 with hm3 | hm4
      · exact absurd hm3 (by decide)
      · exact toString_nat_ne_slash c hm4
    · exact absurd hm2 (by decide)

theorem dupName_clean (f : String) (c : Nat) (hf : cleanSeg f) :
    cleanSeg (dupName f c) := by
  unfold dupName
  split
  · constructor
    · show strL (pySplitext f).1 ++ strL (" - dup (") ++ strL (toString c) ++ strL (")") ++ strL (pySplitext f).2 ≠ []
      have : (strL (" - dup (")).length > 0 := by decide
      intro h
      have := congrArg List.length h
      simp only [List.length_append, List.length_nil] at this
      omega
    · show '/' ∉ strL (pySplitext f).1 ++ strL (" - dup (") ++ strL (toString c) ++ strL (")") ++ strL (pySplitext f).2
      intro hm
      simp only [List.mem_append] at hm
      rcases hm with (((h1 | h2) | h3) | h4) | h5
      · exact hf.2 ((pySplitext_sub f).1 _ h1)
      · exact absurd h2 (by decide)
      · exact toString_nat_ne_slash c h3
      · exact absurd h4 (by decide)
      · exact hf.2 ((pySplitext_sub f).2 _ h5)
  · have hrepl := dupRepl_clean c
    constructor
    · exact reSubDupGo_ne_nil _ _ _ hf.1 hrepl.1
    · intro hm
      rcases reSubDupGo_mem _ _ _ _ _ hm with h1 | h2
      · exact hrepl.2 h1
      · exact hf.2 h2

theorem findSuitableName_isOk (md5 : String → String) (fs : FS)
    (fuel : Nat) (p : String) (c : Nat) (h : 0 < fuel) :
    ∃ s, findSuitableName md5 fs fuel p c = .ok s := by
  cases fuel with
  | zero => omega
  | succ f =>
    rw [findSuitableName]
    by_cases hpe : pyexists fs p = true
    · rw [if_pos hpe]
      cases hrec : findSuitableName md5 fs f (dupCandidate p c) (c + 1) with
      | ok n => exact ⟨n, rfl⟩
      | error e => exact ⟨md5 (basenameS p), rfl⟩
    · rw [if_neg hpe]
      exact ⟨basenameS p, rfl⟩

theorem findSuitableName_not_exists (md5 : String → String) (fs : FS)
    (fuel : Nat) (p : String) (c : Nat) (h : pyexists fs p = false) :
    findSuitableName md5 fs (fuel + 1) p c = .ok (basenameS p) := by
  rw [findSuitableName, if_neg (by rw [h]; simp)]

theorem findSuitableName_clean (md5 : String → String) (fs : FS)
    (hmd5 : goodHash md5) :
    ∀ fuel p c s, cleanSeg (basenameS p) →
      findSuitableName md5 fs fuel p c = .ok s → cleanSeg s := by
  intro fuel
  induction fuel with
  | zero => intro p c s hp h; simp [findSuitableName] at h
  | succ f ih =>
    intro p c s hp h
    rw [findSuitableName] at h
    by_cases hpe : pyexists fs p = true
    · rw [if_pos hpe] at h
      cases hrec : findSuitableName md5 fs f (dupCandidate p c) (c + 1) with
      | ok n =>
        rw [hrec] at h
        cases h
        have hdc : basenameS (dupCandidate p c) = dupName (basenameS p) c :=
          basenameS_joinP _ _ (dupName_clean _ _ hp)
        exact ih _ _ _ (by rw [hdc]; exact dupName_clean _ _ hp) hrec
      | error e =>
        rw [hrec] at h
        cases h
        exact hmd5 _
    · rw [if_neg hpe] at h
      cases h
      exact hp

/-! ### Frame lemmas for the filesystem operations -/

theorem mkdirIfAbsent_spec (fs : FS) (d : String) (fs1 : FS)
    (h : mkdirIfAbsent fs d = some fs1) :
    fs1.files = fs.files ∧ isdir fs1 d = true ∧
      (∀ x ∈ fs.dirs, x ∈ fs1.dirs) ∧ (∀ x ∈ fs1.dirs, x ∈ fs.dirs ∨ x = d) := by
  unfold mkdirIfAbsent at h
  split at h
  · cases h
    rename_i hd
    exact ⟨rfl, hd, fun x hx => hx, fun x hx => Or.inl hx⟩
  · split at h
    · cases h
      refine ⟨rfl, by simp [isdir], fun x hx => by simp [hx], ?_⟩
      intro x hx
      rcases List.mem_cons.1 hx with h1 | h2
      · exact Or.inr h1
      · exact Or.inl h2
    · exact absurd h (by simp)

theorem addFileFS_mem (fs : FS) (p q : String) :
    q ∈ (addFileFS fs p).files ↔ q = p ∨ q ∈ fs.files := by
  unfold addFileFS
  split
  · rename_i hc
    constructor
    · exact fun h => Or.inr h
    · intro h
      rcases h with h | h
      · subst h; exact (by simpa using hc)
      · exact h
  · simp

theorem addFileFS_dirs (fs : FS) (p : String) : (addFileFS fs p).dirs = fs.dirs := by
  unfold addFileFS
  split
  · rfl
  · rfl

theorem addFileFS_nodup (fs : FS) (p : String) (h : fs.files.Nodup) :
    (addFileFS fs p).files.Nodup := by
  unfold addFileFS
  split
  · exact h
  · rename_i hc
    refine List.Nodup.cons ?_ h
    intro hm
    exact absurd (by simpa using hm : fs.files.contains p = true) (by simpa using hc)

theorem rmdirTry_files (fs : FS) (p : String) : (rmdirTry fs p).files = fs.files := by
  unfold rmdirTry
  split
  · rfl
  · rfl

theorem rmdirTry_dirs_sub (fs : FS) (p : String) :
    ∀ d ∈ fs.dirs, d ≠ p → d ∈ (rmdirTry fs p).dirs := by
  intro d hd hne
  unfold rmdirTry
  split
  · exact List.mem_erase_of_ne hne |>.mpr hd
  · exact hd

theorem rmdirTry_removed (fs : FS) (p : String) (hdp : isdir fs p = true)
    (h : p ∉ (rmdirTry fs p).dirs) : dirNonEmpty fs p = false := by
  by_contra hne
  have hne' : dirNonEmpty fs p = true := by
    cases hx : dirNonEmpty fs p
    · exact absurd hx hne
    · rfl
  apply h
  unfold rmdirTry
  rw [hdp, hne']
  simpa [isdir] using hdp

theorem rmdirTry_kept (fs : FS) (p : String) (h : dirNonEmpty fs p = true) :
    rmdirTry fs p = fs := by
  unfold rmdirTry
  rw [h]
  simp

theorem joinP_absolute (a b : String) (h : (strL b).head? = some '/') :
    joinP a b = b := by
  unfold joinP
  rw [if_pos h]

theorem setExt_inv (md5 : String → String) (fuel : Nat) (fs : FS) (f : PyFile)
    (root : String) (group : Bool) (fs1 : FS) (final : String)
    (h : setExtensionDestination md5 fuel fs f root group = some (fs1, final)) :
    ∃ extension_dst suitable,
      ((group = true ∧ ∃ fsg, mkdirIfAbsent fs (joinP root f.category) = some fsg ∧
          extension_dst = joinP (joinP root f.category) (pyUpper f.extension) ∧
          mkdirIfAbsent fsg extension_dst = some fs1) ∨
        (group = false ∧ extension_dst = joinP root (pyUpper f.extension) ∧
          mkdirIfAbsent fs extension_dst = some fs1)) ∧
      findSuitableName md5 fs1 fuel (joinP extension_dst f.name) 1 = .ok suitable ∧
      final = joinP (dirnameS (joinP extension_dst f.name)) suitable := by
  unfold setExtensionDestination at h
  cases group with
  | false =>
    simp only [Bool.false_eq_true, if_false] at h
    cases hm : mkdirIfAbsent fs (joinP root (pyUpper f.extension)) with
    | none => rw [hm] at h; exact absurd h (by simp)
    | some fsa =>
      rw [hm] at h
      dsimp only at h
      cases hfn : findSuitableName md5 fsa fuel
          (joinP (joinP root (pyUpper f.extension)) f.name) 1 with
      | error e => rw [hfn] at h; exact absurd h (by simp)
      | ok s =>
        rw [hfn] at h
        simp only [Option.some.injEq, Prod.mk.injEq] at h
        obtain ⟨h1, h2⟩ := h
        subst h1
        exact ⟨joinP root (pyUpper f.extension), s,
          Or.inr ⟨rfl, rfl, hm⟩, hfn, h2.symm⟩
  | true =>
    simp only [if_true] at h
    cases hg : mkdirIfAbsent fs (joinP root f.category) with
    | none => rw [hg] at h; exact absurd h (by simp)
    | some fsg =>
      rw [hg] at h
      dsimp only at h
      cases hm : mkdirIfAbsent fsg (joinP (joinP root f.category) (pyUpper f.extension)) with
      | none => rw [hm] at h; exact absurd h (by simp)
      | some fsa =>
        rw [hm] at h
        dsimp only at h
        cases hfn : findSuitableName md5 fsa fuel
            (joinP (joinP (joinP root f.category) (pyUpper f.extension)) f.name) 1 with
        | error e => rw [hfn] at h; exact absurd h (by simp)
        | ok s =>
          rw [hfn] at h
          simp only [Option.some.injEq, Prod.mk.injEq] at h
          obtain ⟨h1, h2⟩ := h
          subst h1
          exact ⟨joinP (joinP root f.category) (pyUpper f.extension), s,
            Or.inl ⟨rfl, fsg, rfl, rfl, hm⟩, hfn, h2.symm⟩

theorem setExt_spec (md5 : String → String) (fuel : Nat) (fs : FS) (f : PyFile)
    (root : String) (group : Bool) (fs1 : FS) (final : String)
    (h : setExtensionDestination md5 fuel fs f root group = some (fs1, final)) :
    fs1.files = fs.files ∧ (∀ x ∈ fs.dirs, x ∈ fs1.dirs) := by
  obtain ⟨ed, s, hbr, _, _⟩ := setExt_inv md5 fuel fs f root group fs1 final h
  rcases hbr with ⟨_, fsg, hg, _, hm⟩ | ⟨_, _, hm⟩
  · obtain ⟨hg1, _, hg3, _⟩ := mkdirIfAbsent_spec _ _ _ hg
    obtain ⟨hm1, _, hm3, _⟩ := mkdirIfAbsent_spec _ _ _ hm
    exact ⟨by rw [hm1, hg1], fun x hx => hm3 x (hg3 x hx)⟩
  · obtain ⟨hm1, _, hm3, _⟩ := mkdirIfAbsent_spec _ _ _ hm
    exact ⟨hm1, hm3⟩

theorem shutilMove_file (fs : FS) (src dst : String) (fs2 : FS) (real : String)
    (hsrc : isfile fs src = true)
    (h : shutilMove fs src dst = some (fs2, real)) :
    fs2.dirs = fs.dirs ∧
    (∀ q ∈ fs.files, q ≠ src → q ∈ fs2.files) ∧
    real ∈ fs2.files ∧
    (∀ q ∈ fs2.files, q = real ∨ q ∈ fs.files) ∧
    (fs.files.Nodup → fs2.files.Nodup) ∧
    (isdir fs dst = false → real = dst) := by
  have key : fs2 = addFileFS { files := fs.files.erase src, dirs := fs.dirs } real ∧
      (isdir fs dst = false → real = dst) := by
    by_cases hd : isdir fs dst = true
    · simp only [shutilMove, hsrc, hd, if_true, Bool.true_and] at h
      by_cases hex : pyexists fs (joinP dst (basenameS src)) = true
      · rw [if_pos hex] at h
        exact absurd h (by simp)
      · rw [if_neg hex] at h
        simp only [Option.some.injEq, Prod.mk.injEq] at h
        exact ⟨by rw [← h.1, ← h.2], fun hc => absurd hd (by rw [hc]; simp)⟩
    · have hd' : isdir fs dst = false := by
        cases hx : isdir fs dst
        · rfl
        · exact absurd hx hd
      simp only [shutilMove, hsrc, hd', if_true, Bool.false_and, Bool.false_eq_true,
        if_false] at h
      simp only [Option.some.injEq, Prod.mk.injEq] at h
      exact ⟨by rw [← h.1, ← h.2], fun _ => h.2.symm⟩
  obtain ⟨hfs2, hreal⟩ := key
  subst hfs2
  refine ⟨by rw [addFileFS_dirs], ?_, ?_, ?_, ?_, hreal⟩
  · intro q hq hne
    rw [addFileFS_mem]
    exact Or.inr (List.mem_erase_of_ne hne |>.mpr hq)
  · rw [addFileFS_mem]
    exact Or.inl rfl
  · intro q hq
    rw [addFileFS_mem] at hq
    rcases hq with hq | hq
    · exact Or.inl hq
    · exact Or.inr (List.erase_subset _ _ hq)
  · intro hnd
    exact addFileFS_nodup _ _ (hnd.erase src)

theorem fileMoveTo_frame (rebuild : FS → String → PyFile) (md5 : String → String)
    (fuel : Nat) (fs : FS) (f : PyFile) (root : String) (group : Bool)
    (fs2 : FS) (f' : PyFile) (lg : List (String × String))
    (hsrc : f.path ∈ fs.files)
    (h : fileMoveTo rebuild md5 fuel fs f root group = some (fs2, f', lg)) :
    (∀ q ∈ fs.files, q ≠ f.path → q ∈ fs2.files) ∧
    (∀ d ∈ fs.dirs, d ∈ fs2.dirs) ∧
    (∀ e ∈ lg, e.1 = f.path) ∧
    (fs.files.Nodup → fs2.files.Nodup) := by
  unfold fileMoveTo at h
  cases hset : setExtensionDestination md5 fuel fs f root group with
  | none => rw [hset] at h; exact absurd h (by simp)
  | some r =>
    obtain ⟨fsa, final⟩ := r
    rw [hset] at h
    dsimp only at h
    obtain ⟨hfiles, hdirs⟩ := setExt_spec md5 fuel fs f root group fsa final hset
    by_cases hguard : dirnameS f.path = dirnameS final
    · rw [if_pos hguard] at h
      simp only [Option.some.injEq, Prod.mk.injEq] at h
      obtain ⟨h1, _, h3⟩ := h
      subst h1
      refine ⟨?_, hdirs, ?_, ?_⟩
      · intro q hq _
        rw [hfiles]; exact hq
      · intro e he
        rw [← h3] at he
        simp at he
      · intro hnd
        rw [hfiles]; exact hnd
    · rw [if_neg hguard] at h
      cases hmv : shutilMove fsa f.path final with
      | none => rw [hmv] at h; exact absurd h (by simp)
      | some r2 =>
        obtain ⟨fsb, real⟩ := r2
        rw [hmv] at h
        dsimp only at h
        simp only [Option.some.injEq, Prod.mk.injEq] at h
        obtain ⟨h1, _, h3⟩ := h
        subst h1
        have hsrc' : isfile fsa f.path = true := by
          unfold isfile
          rw [hfiles]
          simpa using hsrc
        obtain ⟨hd2, hpres, _, _, hnd2, _⟩ :=
          shutilMove_file fsa f.path final fsb real hsrc' hmv
        refine ⟨?_, ?_, ?_, ?_⟩
        · intro q hq hne
          apply hpres
          · rw [hfiles]; exact hq
          · exact hne
        · intro d hd
          rw [hd2]; exact hdirs d hd
        · intro e he
          rw [← h3] at he
          simp only [List.mem_singleton] at he
          rw [he]
        · intro hnd
          apply hnd2
          rw [hfiles]; exact hnd

theorem globFiles_mem (fs : FS) (src x : String) :
    x ∈ globFiles fs src ↔
      x ∈ fs.files ∧ dirnameS x = src ∧ startsWithS (basenameS x) (".") = false := by
  unfold globFiles
  rw [List.mem_filter]
  constructor
  · rintro ⟨h1, h2⟩
    simp only [Bool.and_eq_true, decide_eq_true_eq, Bool.not_eq_true'] at h2
    exact ⟨h1, h2.1, h2.2⟩
  · rintro ⟨h1, h2, h3⟩
    refine ⟨h1, ?_⟩
    simp only [Bool.and_eq_true, decide_eq_true_eq, Bool.not_eq_true']
    exact ⟨h2, h3⟩

theorem moveFilesLoop_frame (mkEntry rebuild : FS → String → PyFile)
    (md5 : String → String) (fuel : Nat) (src root : String) (gc : Bool)
    (hpath : ∀ fs' p, (mkEntry fs' p).path = p) :
    ∀ l fs fsE log,
      (∀ x ∈ l, (strL x).head? = some '/') →
      (∀ x ∈ l, x ∈ fs.files) →
      l.Nodup →
      moveFilesLoop mkEntry rebuild md5 fuel src root gc fs l = some (fsE, log) →
      (∀ q ∈ fs.files, q ∉ l → q ∈ fsE.files) ∧
      (∀ d ∈ fs.dirs, d ∈ fsE.dirs) ∧
      (∀ e ∈ log, e.1 ∈ l) ∧
      (fs.files.Nodup → fsE.files.Nodup) := by
  intro l
  induction l with
  | nil =>
    intro fs fsE log _ _ _ h
    unfold moveFilesLoop at h
    simp only [Option.some.injEq, Prod.mk.injEq] at h
    obtain ⟨h1, h2⟩ := h
    subst h1
    exact ⟨fun q hq _ => hq, fun d hd => hd, fun e he => by rw [← h2] at he; simp at he,
      fun hnd => hnd⟩
  | cons x xs ih =>
    intro fs fsE log habs hmem hnd h
    unfold moveFilesLoop at h
    rw [joinP_absolute src x (habs x (by simp))] at h
    cases hf : fileMoveTo rebuild md5 fuel fs (mkEntry fs x) root gc with
    | none => rw [hf] at h; exact absurd h (by simp)
    | some r =>
      obtain ⟨fs1, f1, lg1⟩ := r
      rw [hf] at h
      dsimp only at h
      cases hrest : moveFilesLoop mkEntry rebuild md5 fuel src root gc fs1 xs with
      | none => rw [hrest] at h; exact absurd h (by simp)
      | some r2 =>
        obtain ⟨fse2, lg2⟩ := r2
        rw [hrest] at h
        dsimp only at h
        simp only [Option.some.injEq, Prod.mk.injEq] at h
        obtain ⟨h1, h2⟩ := h
        subst h1
        have hxfs : (mkEntry fs x).path ∈ fs.files := by
          rw [hpath]; exact hmem x (by simp)
        obtain ⟨hp1, hp2, hp3, hp4⟩ :=
          fileMoveTo_frame rebuild md5 fuel fs (mkEntry fs x) root gc fs1 f1 lg1 hxfs hf
        have hxne : x ∉ xs := (List.nodup_cons.1 hnd).1
        obtain ⟨hq1, hq2, hq3, hq4⟩ :=
          ih fs1 fse2 lg2 (fun y hy => habs y (by simp [hy]))
            (fun y hy => by
              apply hp1
              · exact hmem y (by simp [hy])
              · rw [hpath]
                intro hyx
                exact hxne (hyx ▸ hy))
            (List.nodup_cons.1 hnd).2 hrest
        refine ⟨?_, ?_, ?_, ?_⟩
        · intro q hq hql
          apply hq1
          · apply hp1 q hq
            rw [hpath]
            intro hqx
            exact hql (by simp [hqx])
          · intro hqxs
            exact hql (by simp [hqxs])
        · intro d hd
          exact hq2 d (hp2 d hd)
        · intro e he
          rw [← h2] at he
          rcases List.mem_append.1 he with he1 | he2
          · have := hp3 e he1
            rw [hpath] at this
            simp [this]
          · simp [hq3 e he2]
        · intro hnd'
          exact hq4 (hp4 hnd')

theorem dirNonEmpty_false (fs : FS) (p : String) (h : dirNonEmpty fs p = false) :
    (∀ q ∈ fs.files, isUnderP p q = false) ∧ (∀ q ∈ fs.dirs, isUnderP p q = false) := by
  unfold dirNonEmpty at h
  simp only [Bool.or_eq_false_iff, List.any_eq_false] at h
  constructor
  · intro q hq
    cases hu : isUnderP p q
    · rfl
    · exact absurd hu (h.1 q hq)
  · intro q hq
    cases hu : isUnderP p q
    · rfl
    · exact absurd hu (h.2 q hq)

theorem folderMoveTo_merge_inv (tg : List (String × List String)) (tl : List String)
    (md5 : String → String) (fuel : Nat) (fs : FS) (folder : PyFolder)
    (dst root : String) (gc : Bool) (fs' : FS) (folder' : PyFolder)
    (log : List (String × String))
    (hdst : isdir fs dst = true)
    (h : folderMoveTo tg tl md5 fuel fs folder dst root none gc = some (fs', folder', log)) :
    ∃ fs1, folderMoveContents tg md5 fuel fs folder.path dst root gc = some (fs1, log) ∧
      fs' = rmdirTry fs1 folder.path := by
  unfold folderMoveTo at h
  simp only [Option.getD_none, hdst, if_true] at h
  cases hmc : folderMoveContents tg md5 fuel fs folder.path dst root gc with
  | none => rw [hmc] at h; exact absurd h (by simp)
  | some r =>
    obtain ⟨fs1, lg⟩ := r
    rw [hmc] at h
    dsimp only at h
    simp only [Option.some.injEq, Prod.mk.injEq] at h
    obtain ⟨h1, _, h3⟩ := h
    exact ⟨fs1, by rw [h3], h1.symm⟩

/-- C1: in the merge branch of `Folder._move_to` (destination is an existing
directory), every move performed relocates an immediate, non-hidden regular
file of the source folder; every file that is not an immediate child of the
source (in particular everything inside its subfolders) stays at its path,
and no directory other than possibly the source itself disappears; the
source directory is removed only if nothing at all remains under it after
the moves; and the removal attempt never changes the set of files, whether
it succeeds or fails (a failure is caught, so the merge still returns
normally and the completed moves are kept). -/
theorem folder_merge_safety
    (tg : List (String × List String)) (tl : List String) (md5 : String → String)
    (fuel : Nat) (fs : FS) (folder : PyFolder) (dst root : String) (gc : Bool)
    (fs' : FS) (folder' : PyFolder) (log : List (String × String))
    (habs : ∀ q ∈ fs.files, (strL q).head? = some '/')
    (hnd : fs.files.Nodup)
    (hdst : isdir fs dst = true)
    (h : folderMoveTo tg tl md5 fuel fs folder dst root none gc = some (fs', folder', log)) :
    (∀ e ∈ log, e.1 ∈ fs.files ∧ dirnameS e.1 = folder.path ∧
      startsWithS (basenameS e.1) (".") = false) ∧
    (∀ q ∈ fs.files, dirnameS q ≠ folder.path → q ∈ fs'.files) ∧
    (∀ d ∈ fs.dirs, d ≠ folder.path → d ∈ fs'.dirs) ∧
    (folder.path ∈ fs.dirs → folder.path ∉ fs'.dirs →
      (∀ q ∈ fs'.files, isUnderP folder.path q = false) ∧
      (∀ q ∈ fs'.dirs, isUnderP folder.path q = false)) ∧
    (∃ fs1, folderMoveContents tg md5 fuel fs folder.path dst root gc = some (fs1, log) ∧
      fs'.files = fs1.files) := by
  obtain ⟨fs1, hmc, hrm⟩ :=
    folderMoveTo_merge_inv tg tl md5 fuel fs folder dst root gc fs' folder' log hdst h
  have hloop := hmc
  unfold folderMoveContents at hloop
  obtain ⟨hq1, hq2, hq3, hq4⟩ :=
    moveFilesLoop_frame (fun fs' p => mkPyFile tg fs' p) (fun fs' p => mkPyFile tg fs' p)
      md5 fuel folder.path root gc (fun _ _ => rfl) (globFiles fs folder.path) fs fs1 log
      (fun x hx => habs x ((globFiles_mem fs folder.path x).1 hx).1)
      (fun x hx => ((globFiles_mem fs folder.path x).1 hx).1)
      (hnd.filter _) hloop
  have hfiles' : fs'.files = fs1.files := by rw [hrm, rmdirTry_files]
  refine ⟨?_, ?_, ?_, ?_, fs1, hmc, hfiles'⟩
  · intro e he
    have := (globFiles_mem fs folder.path e.1).1 (hq3 e he)
    exact this
  · intro q hq hqd
    rw [hfiles']
    apply hq1 q hq
    intro hmem
    exact hqd ((globFiles_mem fs folder.path q).1 hmem).2.1
  · intro d hd hne
    rw [hrm]
    exact rmdirTry_dirs_sub fs1 folder.path d (hq2 d hd) hne
  · intro hsrc hnot
    have hsrc1 : isdir fs1 folder.path = true := by
      unfold isdir
      simpa using hq2 folder.path hsrc
    have hempty : dirNonEmpty fs1 folder.path = false := by
      apply rmdirTry_removed fs1 folder.path hsrc1
      rw [← hrm]
      exact hnot
    obtain ⟨he1, he2⟩ := dirNonEmpty_false fs1 folder.path hempty
    constructor
    · intro q hq
      apply he1
      rw [← hfiles']
      exact hq
    · intro q hq
      apply he2
      rw [hrm] at hq
      unfold rmdirTry at hq
      split at hq
      · exact List.erase_subset _ _ hq
      · exact hq

theorem dirNonEmpty_of_file (fs : FS) (p q : String) (hq : q ∈ fs.files)
    (hu : isUnderP p q = true) : dirNonEmpty fs p = true := by
  unfold dirNonEmpty
  have : fs.files.any (fun x => isUnderP p x) = true :=
    List.any_eq_true.2 ⟨q, hq, hu⟩
  rw [this]
  simp

theorem customFolderMoveTo_merge_inv (tg : List (String × List String))
    (tl : List String) (md5 : String → String) (fuel : Nat) (sig : String)
    (fs : FS) (cfolder : PyCustomFolder) (dst root : String) (gc : Bool)
    (fs' : FS) (cfolder' : PyCustomFolder) (log : List (String × String))
    (hdst : isdir fs dst = true)
    (h : customFolderMoveTo tg tl md5 fuel sig fs cfolder dst root none gc =
      some (fs', cfolder', log)) :
    ∃ fs1, customFolderMoveContents cfolder.group_folder md5 fuel fs
        cfolder.base.path dst root gc = some (fs1, log) ∧
      fs' = rmdirTry
        (if has_signore_file fs1 dst sig then fs1 else addFileFS fs1 (joinP dst sig))
        cfolder.base.path := by
  unfold customFolderMoveTo at h
  simp only [Option.getD_none, hdst, if_true] at h
  cases hmc : customFolderMoveContents cfolder.group_folder md5 fuel fs
      cfolder.base.path dst root gc with
  | none => rw [hmc] at h; exact absurd h (by simp)
  | some r =>
    obtain ⟨fs1, lg⟩ := r
    rw [hmc] at h
    dsimp only at h
    simp only [Option.some.injEq, Prod.mk.injEq] at h
    obtain ⟨h1, _, h3⟩ := h
    exact ⟨fs1, by rw [h3], h1.symm⟩

/-- C10: in both `Folder._move_contents` and `CustomFolder._move_contents`,
immediate files whose names begin with a dot are not produced by the glob
enumeration, are never moved (no move-log entry names them), remain in the
source folder in the final state, and their survival makes the subsequent
empty-directory removal of the source fail, so the source directory
remains. -/
theorem glob_skips_dotfiles :
    (∀ (tg : List (String × List String)) (tl : List String)
      (md5 : String → String) (fuel : Nat) (fs : FS) (folder : PyFolder)
      (dst root : String) (gc : Bool) (fs' : FS) (folder' : PyFolder)
      (log : List (String × String)) (q : String),
      (∀ x ∈ fs.files, (strL x).head? = some '/') → fs.files.Nodup →
      isdir fs dst = true → q ∈ fs.files → dirnameS q = folder.path →
      startsWithS (basenameS q) (".") = true → isUnderP folder.path q = true →
      folderMoveTo tg tl md5 fuel fs folder dst root none gc = some (fs', folder', log) →
      q ∉ globFiles fs folder.path ∧ q ∈ fs'.files ∧ (∀ e ∈ log, e.1 ≠ q) ∧
        (folder.path ∈ fs.dirs → folder.path ∈ fs'.dirs)) ∧
    (∀ (tg : List (String × List String)) (tl : List String)
      (md5 : String → String) (fuel : Nat) (sig : String) (fs : FS)
      (cfolder : PyCustomFolder) (dst root : String) (gc : Bool) (fs' : FS)
      (cfolder' : PyCustomFolder) (log : List (String × String)) (q : String),
      (∀ x ∈ fs.files, (strL x).head? = some '/') → fs.files.Nodup →
      isdir fs dst = true → q ∈ fs.files → dirnameS q = cfolder.base.path →
      startsWithS (basenameS q) (".") = true → isUnderP cfolder.base.path q = true →
      customFolderMoveTo tg tl md5 fuel sig fs cfolder dst root none gc =
        some (fs', cfolder', log) →
      q ∉ globFiles fs cfolder.base.path ∧ q ∈ fs'.files ∧ (∀ e ∈ log, e.1 ≠ q) ∧
        (cfolder.base.path ∈ fs.dirs → cfolder.base.path ∈ fs'.dirs)) := by
  constructor
  · intro tg tl md5 fuel fs folder dst root gc fs' folder' log q
    intro habs hnd hdst hq hqd hqdot hqu h
    have hnglob : q ∉ globFiles fs folder.path := by
      intro hmem
      have := ((globFiles_mem fs folder.path q).1 hmem).2.2
      rw [hqdot] at this
      exact absurd this (by simp)
    obtain ⟨fs1, hmc, hrm⟩ :=
      folderMoveTo_merge_inv tg tl md5 fuel fs folder dst root gc fs' folder' log hdst h
    have hloop := hmc
    unfold folderMoveContents at hloop
    obtain ⟨hq1, hq2, hq3, _⟩ :=
      moveFilesLoop_frame (fun fs'' p => mkPyFile tg fs'' p) (fun fs'' p => mkPyFile tg fs'' p)
        md5 fuel folder.path root gc (fun _ _ => rfl) (globFiles fs folder.path) fs fs1 log
        (fun x hx => habs x ((globFiles_mem fs folder.path x).1 hx).1)
        (fun x hx => ((globFiles_mem fs folder.path x).1 hx).1)
        (hnd.filter _) hloop
    have hq1' : q ∈ fs1.files := hq1 q hq hnglob
    refine ⟨hnglob, ?_, ?_, ?_⟩
    · rw [hrm, rmdirTry_files]
      exact hq1'
    · intro e he hne
      exact hnglob (hne ▸ hq3 e he)
    · intro hsrc
      have hne : dirNonEmpty fs1 folder.path = true :=
        dirNonEmpty_of_file fs1 folder.path q hq1' hqu
      rw [hrm, rmdirTry_kept fs1 folder.path hne]
      exact hq2 folder.path hsrc
  · intro tg tl md5 fuel sig fs cfolder dst root gc fs' cfolder' log q
    intro habs hnd hdst hq hqd hqdot hqu h
    have hnglob : q ∉ globFiles fs cfolder.base.path := by
      intro hmem
      have := ((globFiles_mem fs cfolder.base.path q).1 hmem).2.2
      rw [hqdot] at this
      exact absurd this (by simp)
    obtain ⟨fs1, hmc, hrm⟩ :=
      customFolderMoveTo_merge_inv tg tl md5 fuel sig fs cfolder dst root gc
        fs' cfolder' log hdst h
    have hloop := hmc
    unfold customFolderMoveContents at hloop
    obtain ⟨hq1, hq2, hq3, _⟩ :=
      moveFilesLoop_frame (fun fs'' p => mkCustomFile fs'' p cfolder.group_folder)
        (fun fs'' p => mkCustomFile fs'' p cfolder.group_folder)
        md5 fuel cfolder.base.path root gc (fun _ _ => rfl)
        (globFiles fs cfolder.base.path) fs fs1 log
        (fun x hx => habs x ((globFiles_mem fs cfolder.base.path x).1 hx).1)
        (fun x hx => ((globFiles_mem fs cfolder.base.path x).1 hx).1)
        (hnd.filter _) hloop
    have hq1' : q ∈ fs1.files := hq1 q hq hnglob
    have hq2' : q ∈ (if has_signore_file fs1 dst sig then fs1
        else addFileFS fs1 (joinP dst sig)).files := by
      split
      · exact hq1'
      · rw [addFileFS_mem]; exact Or.inr hq1'
    refine ⟨hnglob, ?_, ?_, ?_⟩
    · rw [hrm, rmdirTry_files]
      exact hq2'
    · intro e he hne
      exact hnglob (hne ▸ hq3 e he)
    · intro hsrc
      have hne : dirNonEmpty (if has_signore_file fs1 dst sig then fs1
          else addFileFS fs1 (joinP dst sig)) cfolder.base.path = true :=
        dirNonEmpty_of_file _ cfolder.base.path q hq2' hqu
      rw [hrm, rmdirTry_kept _ cfolder.base.path hne]
      split
      · exact hq2 cfolder.base.path hsrc
      · rw [addFileFS_dirs]
        exact hq2 cfolder.base.path hsrc

theorem isPrefixOf_exists (l₁ : List Char) :
    ∀ l₂, l₁.isPrefixOf l₂ = true → ∃ t, l₂ = l₁ ++ t := by
  induction l₁ with
  | nil => exact fun l₂ _ => ⟨l₂, rfl⟩
  | cons a as ih =>
    intro l₂ h
    cases l₂ with
    | nil => simp [List.isPrefixOf] at h
    | cons b bs =>
      simp only [List.isPrefixOf_cons₂, Bool.and_eq_true, beq_iff_eq] at h
      obtain ⟨h1, h2⟩ := h
      obtain ⟨t, ht⟩ := ih bs h2
      exact ⟨t, by rw [h1, ht, List.cons_append]⟩

theorem shutilMove_dir (fs : FS) (src dst : String) (fs2 : FS) (real : String)
    (hsrcf : isfile fs src = false) (hsrcd : isdir fs src = true)
    (hdst : isdir fs dst = false)
    (h : shutilMove fs src dst = some (fs2, real)) :
    real = dst ∧ fs2 = renameTree fs src dst := by
  simp only [shutilMove, hsrcf, hsrcd, hdst, Bool.false_eq_true, if_false, if_true] at h
  by_cases h1 : isfile fs dst = true
  · rw [if_pos h1] at h
    exact absurd h (by simp)
  · rw [if_neg h1] at h
    by_cases h2 : (!isdir fs (dirnameS dst)) = true
    · rw [if_pos h2] at h
      exact absurd h (by simp)
    · rw [if_neg h2] at h
      simp only [Option.some.injEq, Prod.mk.injEq] at h
      exact ⟨h.2.symm, h.1.symm⟩

theorem renameTree_marker_absent (fs : FS) (src dst sig : String)
    (hsrc_good : goodDir src) (hdst_good : goodDir dst) (hsig : cleanSeg sig)
    (h1 : joinP src sig ∉ fs.files) (h2 : joinP dst sig ∉ fs.files) :
    joinP dst sig ∉ (renameTree fs src dst).files := by
  intro hm
  unfold renameTree at hm
  simp only [List.mem_map] at hm
  obtain ⟨q, hq, hrb⟩ := hm
  unfold rebaseP at hrb
  split at hrb
  · rename_i hqsrc
    have hlt := length_joinP_lt dst sig hdst_good.1 hsig
    rw [← hrb] at hlt
    omega
  · split at hrb
    · rename_i hqsrc hunder
      obtain ⟨t, ht⟩ := isPrefixOf_exists (strL src ++ ['/']) (strL q) hunder
      have hdrop : (strL q).drop (strL src).length = '/' :: t := by
        rw [ht]
        have : strL src ++ ['/'] ++ t = strL src ++ ('/' :: t) := by simp
        rw [this, List.drop_left]
      have hjd : strL (joinP dst sig) = strL dst ++ '/' :: strL sig :=
        joinP_eq_append dst sig hdst_good.1 hdst_good.2 hsig
      have hrb' : strL dst ++ (strL q).drop (strL src).length = strL dst ++ '/' :: strL sig := by
        have := congrArg strL hrb
        rw [strL_strOf] at this
        rw [this, hjd]
      rw [hdrop] at hrb'
      have ht2 : t = strL sig := by
        have := List.append_cancel_left hrb'
        simpa using this
      have hqeq : q = joinP src sig := by
        rw [strL_eq_iff, ht, ht2, joinP_eq_append src sig hsrc_good.1 hsrc_good.2 hsig]
        simp
      rw [hqeq] at hq
      exact h1 hq
    · rw [hrb] at hq
      exact h2 hq

/-- C7: `CustomFolder._move_to` writes the marker file into an existing
destination only when it is absent, so after any merge into an existing
destination exactly one marker file exists there, no matter how many merges
happened before; on the fast path (destination did not exist, whole-folder
rename), no marker is written, so none exists at the destination afterwards
unless the source tree itself carried one. -/
theorem custom_marker_invariant :
    (∀ (tg : List (String × List String)) (tl : List String)
      (md5 : String → String) (fuel : Nat) (sig : String) (fs : FS)
      (cfolder : PyCustomFolder) (dst root : String) (gc : Bool) (fs' : FS)
      (cfolder' : PyCustomFolder) (log : List (String × String)),
      (∀ x ∈ fs.files, (strL x).head? = some '/') → fs.files.Nodup →
      isdir fs dst = true →
      customFolderMoveTo tg tl md5 fuel sig fs cfolder dst root none gc =
        some (fs', cfolder', log) →
      fs'.files.count (joinP dst sig) = 1) ∧
    (∀ (tg : List (String × List String)) (tl : List String)
      (md5 : String → String) (fuel : Nat) (sig : String) (fs : FS)
      (cfolder : PyCustomFolder) (dst root : String) (gc : Bool) (fs' : FS)
      (cfolder' : PyCustomFolder) (log : List (String × String)),
      isdir fs dst = false →
      isfile fs cfolder.base.path = false → isdir fs cfolder.base.path = true →
      goodDir cfolder.base.path → goodDir dst → cleanSeg sig →
      joinP cfolder.base.path sig ∉ fs.files → joinP dst sig ∉ fs.files →
      customFolderMoveTo tg tl md5 fuel sig fs cfolder dst root none gc =
        some (fs', cfolder', log) →
      joinP dst sig ∉ fs'.files) := by
  constructor
  · intro tg tl md5 fuel sig fs cfolder dst root gc fs' cfolder' log
    intro habs hnd hdst h
    obtain ⟨fs1, hmc, hrm⟩ :=
      customFolderMoveTo_merge_inv tg tl md5 fuel sig fs cfolder dst root gc
        fs' cfolder' log hdst h
    have hloop := hmc
    unfold customFolderMoveContents at hloop
    obtain ⟨_, _, _, hq4⟩ :=
      moveFilesLoop_frame (fun fs'' p => mkCustomFile fs'' p cfolder.group_folder)
        (fun fs'' p => mkCustomFile fs'' p cfolder.group_folder)
        md5 fuel cfolder.base.path root gc (fun _ _ => rfl)
        (globFiles fs cfolder.base.path) fs fs1 log
        (fun x hx => habs x ((globFiles_mem fs cfolder.base.path x).1 hx).1)
        (fun x hx => ((globFiles_mem fs cfolder.base.path x).1 hx).1)
        (hnd.filter _) hloop
    have hnd1 : fs1.files.Nodup := hq4 hnd
    rw [hrm, rmdirTry_files]
    by_cases hsig : has_signore_file fs1 dst sig = true
    · rw [if_pos hsig]
      apply List.count_eq_one_of_mem hnd1
      unfold has_signore_file isfile at hsig
      simpa using hsig
    · rw [if_neg hsig]
      apply List.count_eq_one_of_mem (addFileFS_nodup fs1 (joinP dst sig) hnd1)
      rw [addFileFS_mem]
      exact Or.inl rfl
  · intro tg tl md5 fuel sig fs cfolder dst root gc fs' cfolder' log
    intro hdst hsrcf hsrcd hgsrc hgdst hsig hm1 hm2 h
    unfold customFolderMoveTo at h
    simp only [Option.getD_none, hdst, Bool.false_eq_true, if_false] at h
    cases hmv : shutilMove fs cfolder.base.path dst with
    | none => rw [hmv] at h; exact absurd h (by simp)
    | some r =>
      obtain ⟨fs1, real⟩ := r
      rw [hmv] at h
      dsimp only at h
      simp only [Option.some.injEq, Prod.mk.injEq] at h
      obtain ⟨h1, _, _⟩ := h
      obtain ⟨_, hren⟩ :=
        shutilMove_dir fs cfolder.base.path dst fs1 real hsrcf hsrcd hdst hmv
      rw [← h1, hren]
      exact renameTree_marker_absent fs cfolder.base.path dst sig hgsrc hgdst hsig hm1 hm2

/-! ### Lemmas for the fast (rename) path of the folder move -/

theorem splitSeg_ne_nil (cs : List Char) : splitSeg cs ≠ [] := by
  cases cs with
  | nil => simp [splitSeg]
  | cons c rest =>
    unfold splitSeg
    split
    · simp
    · split
      · simp
      · simp

theorem joinSegsC_splitSeg (cs : List Char) : joinSegsC (splitSeg cs) = cs := by
  induction cs with
  | nil => rfl
  | cons c rest ih =>
    by_cases hc : c = '/'
    · subst hc
      unfold splitSeg
      rw [if_pos rfl]
      cases hs : splitSeg rest with
      | nil => exact absurd hs (splitSeg_ne_nil rest)
      | cons s ss =>
        rw [hs] at ih
        show joinSegsC ([] :: s :: ss) = '/' :: rest
        rw [← ih]
        rfl
    · unfold splitSeg
      rw [if_neg hc]
      cases hs : splitSeg rest with
      | nil => exact absurd hs (splitSeg_ne_nil rest)
      | cons s ss =>
        rw [hs] at ih
        cases ss with
        | nil =>
          show joinSegsC [c :: s] = c :: rest
          show c :: s = c :: rest
          rw [← ih]
          rfl
        | cons s2 ss2 =>
          show joinSegsC ((c :: s) :: s2 :: ss2) = c :: rest
          show (c :: s) ++ '/' :: joinSegsC (s2 :: ss2) = c :: rest
          rw [← ih]
          rfl

theorem foldl_insert_mem (l : List String) :
    ∀ acc q, (q ∈ acc ∨ q ∈ l) →
      q ∈ l.foldl (fun ds x => if ds.contains x then ds else x :: ds) acc := by
  induction l with
  | nil =>
    intro acc q h
    rcases h with h | h
    · exact h
    · simp at h
  | cons x xs ih =>
    intro acc q h
    show q ∈ xs.foldl _ (if acc.contains x then acc else x :: acc)
    apply ih
    rcases h with h | h
    · left
      split
      · exact h
      · exact List.mem_cons_of_mem x h
    · rcases List.mem_cons.1 h with h1 | h2
      · left
        subst h1
        split
        · rename_i hc
          simpa using hc
        · simp
      · exact Or.inr h2

theorem makedirs_files (fs : FS) (p : String) : (makedirs fs p).files = fs.files := rfl

theorem makedirs_dirs_sub (fs : FS) (p : String) :
    ∀ d ∈ fs.dirs, d ∈ (makedirs fs p).dirs := by
  intro d hd
  unfold makedirs
  exact foldl_insert_mem _ fs.dirs d (Or.inl hd)

theorem makedirs_mem_self (fs : FS) (p : String) (h1 : p ≠ "") (h2 : p ≠ "/") :
    isdir (makedirs fs p) p = true := by
  unfold isdir makedirs
  have hp : p ∈ pathPrefixes p := by
    unfold pathPrefixes
    rw [List.mem_filter]
    constructor
    · rw [List.mem_map]
      refine ⟨(splitSeg (strL p)).length - 1, ?_, ?_⟩
      · rw [List.mem_range]
        have := splitSeg_ne_nil (strL p)
        have : 0 < (splitSeg (strL p)).length := List.length_pos.2 this
        omega
      · have hlen : (splitSeg (strL p)).length - 1 + 1 = (splitSeg (strL p)).length := by
          have := List.length_pos.2 (splitSeg_ne_nil (strL p))
          omega
        rw [hlen, List.take_length, joinSegsC_splitSeg]
        rfl
    · simp [h1, h2]
  have := foldl_insert_mem (pathPrefixes p) fs.dirs p (Or.inr hp)
  simpa using this

theorem shutilMove_into (fs : FS) (src dst : String) (fs2 : FS) (real : String)
    (hsrcf : isfile fs src = false) (hsrcd : isdir fs src = true)
    (hdst : isdir fs dst = true)
    (h : shutilMove fs src dst = some (fs2, real)) :
    real = joinP dst (basenameS src) ∧
      pyexists fs (joinP dst (basenameS src)) = false ∧
      fs2 = renameTree fs src (joinP dst (basenameS src)) := by
  simp only [shutilMove, hsrcf, hsrcd, hdst, Bool.false_eq_true, if_false, if_true] at h
  by_cases hex : pyexists fs (joinP dst (basenameS src)) = true
  · rw [if_pos hex] at h
    exact absurd h (by simp)
  · rw [if_neg hex] at h
    simp only [Option.some.injEq, Prod.mk.injEq] at h
    refine ⟨h.2.symm, ?_, by rw [← h.1]⟩
    cases hx : pyexists fs (joinP dst (basenameS src))
    · rfl
    · exact absurd hx hex

/-- C6 (amended): when `dst` does not yet exist, `Folder._move_to` first
recreates the full `dst` path (including parents) via `os.makedirs`; since
`dst` then exists as a directory, the single `shutil.move` relocates the
whole source folder *into* `dst`, i.e. to `dst/<source basename>`, with no
per-file iteration (the move log is that single rename); the entry's own
path attribute is set to `dst` — the parent of the folder's actual new
location — and every file of the source tree reappears rebased under
`dst/<source basename>`. -/
theorem folder_move_fastpath
    (tg : List (String × List String)) (tl : List String) (md5 : String → String)
    (fuel : Nat) (fs : FS) (folder : PyFolder) (dst root : String) (gc : Bool)
    (fs' : FS) (folder' : PyFolder) (log : List (String × String))
    (hdst : isdir fs dst = false)
    (hsf : isfile fs folder.path = false)
    (hsd : isdir fs folder.path = true)
    (hd1 : dst ≠ "") (hd2 : dst ≠ "/")
    (hneq : dst ≠ folder.path) (hnu : isUnderP folder.path dst = false)
    (h : folderMoveTo tg tl md5 fuel fs folder dst root none gc = some (fs', folder', log)) :
    log = [(folder.path, joinP dst (basenameS folder.path))] ∧
    folder'.path = dst ∧
    isdir fs' dst = true ∧
    (∀ q ∈ fs.files,
      rebaseP folder.path (joinP dst (basenameS folder.path)) q ∈ fs'.files) := by
  unfold folderMoveTo at h
  simp only [Option.getD_none, hdst, Bool.false_eq_true, if_false] at h
  cases hmv : shutilMove (makedirs fs dst) folder.path dst with
  | none => rw [hmv] at h; exact absurd h (by simp)
  | some r =>
    obtain ⟨fs2, real⟩ := r
    rw [hmv] at h
    dsimp only at h
    simp only [Option.some.injEq, Prod.mk.injEq] at h
    obtain ⟨h1, h2, h3⟩ := h
    have hsd1 : isdir (makedirs fs dst) folder.path = true := by
      unfold isdir
      have hm : folder.path ∈ (makedirs fs dst).dirs :=
        makedirs_dirs_sub fs dst folder.path (by simpa [isdir] using hsd)
      simpa using hm
    obtain ⟨hreal, hex, hren⟩ :=
      shutilMove_into (makedirs fs dst) folder.path dst fs2 real hsf hsd1
        (makedirs_mem_self fs dst hd1 hd2) hmv
    have hfs2 : fs' = renameTree (makedirs fs dst) folder.path
        (joinP dst (basenameS folder.path)) := by
      rw [← h1, hren]
    refine ⟨by rw [← h3, hreal], by rw [← h2]; rfl, ?_, ?_⟩
    · rw [hfs2]
      have h0 : dst ∈ (makedirs fs dst).dirs := by
        have := makedirs_mem_self fs dst hd1 hd2
        simpa [isdir] using this
      have hid : rebaseP folder.path (joinP dst (basenameS folder.path)) dst = dst := by
        unfold rebaseP
        rw [if_neg (fun hx => hneq hx), if_neg (by simp [hnu])]
      have hdm : dst ∈ (renameTree (makedirs fs dst) folder.path
          (joinP dst (basenameS folder.path))).dirs := by
        unfold renameTree
        have hmm := List.mem_map_of_mem
          (rebaseP folder.path (joinP dst (basenameS folder.path))) h0
        rw [hid] at hmm
        exact hmm
      unfold isdir
      simpa using hdm
    · intro q hq
      rw [hfs2]
      unfold renameTree
      have hq1 : q ∈ (makedirs fs dst).files := by rw [makedirs_files]; exact hq
      exact List.mem_map_of_mem _ hq1

/-- C6 counterexample: with source folder `/r/a` (containing `x.txt`) and
destination `/r/out/FOLDERS` not existing, the claim as stated is false:
the single filesystem move performed is `/r/a → /r/out/FOLDERS/a` (not to
`dst` itself), the moved tree ends up at `/r/out/FOLDERS/a/x.txt` and not
at `/r/out/FOLDERS/x.txt`, yet the entry's path is set to `/r/out/FOLDERS`
— so the path does not name the folder's new location. -/
theorem folder_move_fastpath_counterexample :
    (folderMoveTo tgIMAGE tlIMAGE md5W 3 fsFast
        (mkPyFolder tgIMAGE tlIMAGE fsFast ("/r/a"))
        ("/r/out/FOLDERS") ("/r/out") none true).map
      (fun r => (r.2.2, r.2.1.path, isdir r.1 ("/r/out/FOLDERS/a"),
        isfile r.1 ("/r/out/FOLDERS/a/x.txt"), isfile r.1 ("/r/out/FOLDERS/x.txt"),
        isdir r.1 ("/r/a"))) =
      some ([("/r/a", "/r/out/FOLDERS/a")], "/r/out/FOLDERS", true, true, false, false) := by
  decide

/-- Witness for the amended C6 theorem at a concrete fast-path merge. -/
theorem folder_move_fastpath_witness :
    isdir fsFast ("/r/out/FOLDERS") = false ∧
    "/r/out/FOLDERS/a/x.txt" ∈
      (FS.mk ["/r/out/FOLDERS/a/x.txt"]
        ["/r/out/FOLDERS", "/r/out", "/r", "/r/out/FOLDERS/a"]).files := by
  constructor
  · decide
  · exact (folder_move_fastpath tgIMAGE tlIMAGE md5W 3 fsFast
      (mkPyFolder tgIMAGE tlIMAGE fsFast ("/r/a")) ("/r/out/FOLDERS") ("/r/out") true
      (FS.mk ["/r/out/FOLDERS/a/x.txt"]
        ["/r/out/FOLDERS", "/r/out", "/r", "/r/out/FOLDERS/a"])
      (PyFolder.mk ("/r/out/FOLDERS") ("FOLDERS") ("/r/out") false true true (""))
      [("/r/a", "/r/out/FOLDERS/a")]
      (by decide) (by decide) (by decide) (by decide) (by decide) (by decide) (by decide)
      (by decide)).2.2.2 ("/r/a/x.txt") (by decide)

/-- C2: if a file's current directory already equals its resolved classified
destination directory `destination_root/category/EXTENSION_UPPER` (the
`group=True` layout), then a further `File.move_to` performs zero
filesystem moves — the collision resolver offers a `- dup (1)` name in the
same directory, the directory-comparison guard fails, and the entry's path
and the set of files are left unchanged. -/
theorem file_move_idempotent (rebuild : FS → String → PyFile)
    (md5 : String → String) (fuel : Nat) (fs : FS) (f : PyFile) (root : String)
    (fs' : FS) (f' : PyFile) (log : List (String × String))
    (hgh : goodHash md5)
    (hname : cleanSeg f.name)
    (hext : cleanSeg (pyUpper f.extension))
    (hD : dirnameS f.path = joinP (joinP root f.category) (pyUpper f.extension))
    (h : fileMoveTo rebuild md5 fuel fs f root true = some (fs', f', log)) :
    log = [] ∧ f' = f ∧ fs'.files = fs.files := by
  unfold fileMoveTo at h
  cases hset : setExtensionDestination md5 fuel fs f root true with
  | none => rw [hset] at h; exact absurd h (by simp)
  | some r =>
    obtain ⟨fsa, final⟩ := r
    rw [hset] at h
    dsimp only at h
    obtain ⟨ed, suitable, hbr, hfn, hfinal⟩ :=
      setExt_inv md5 fuel fs f root true fsa final hset
    have hed : ed = joinP (joinP root f.category) (pyUpper f.extension) := by
      rcases hbr with ⟨_, _, _, hed, _⟩ | ⟨hg, _, _⟩
      · exact hed
      · exact absurd hg (by simp)
    have hedgd : goodDir ed := by
      rw [hed]
      exact joinP_goodDir _ _ hext
    have hsc : cleanSeg suitable :=
      findSuitableName_clean md5 fsa hgh fuel (joinP ed f.name) 1 suitable
        (by rw [basenameS_joinP _ _ hname]; exact hname) hfn
    have hdn : dirnameS (joinP ed f.name) = ed := dirnameS_joinP _ _ hedgd hname
    have hdf : dirnameS final = ed := by
      rw [hfinal, hdn]
      exact dirnameS_joinP _ _ hedgd hsc
    have hguard : dirnameS f.path = dirnameS final := by
      rw [hD, hdf, hed]
    rw [if_pos hguard] at h
    simp only [Option.some.injEq, Prod.mk.injEq] at h
    obtain ⟨h1, h2, h3⟩ := h
    obtain ⟨hf1, _⟩ := setExt_spec md5 fuel fs f root true fsa final hset
    exact ⟨h3.symm, h2.symm, by rw [← h1, hf1]⟩

/-- Witness for C2: a `photo.jpg` already at `/r/out/IMAGE/JPG/` is moved
again with `group=True`; no filesystem move happens and the entry is
unchanged. -/
theorem file_move_idempotent_witness :
    goodHash md5W ∧
    (([] : List (String × String)) = [] ∧
      mkPyFile tgIMAGE fsInPlace ("/r/out/IMAGE/JPG/photo.jpg") =
        mkPyFile tgIMAGE fsInPlace ("/r/out/IMAGE/JPG/photo.jpg") ∧
      fsInPlace.files = fsInPlace.files) :=
  ⟨fun s => by show cleanSeg ("d41d8cd98f"); decide,
    file_move_idempotent (fun fs q => mkPyFile tgIMAGE fs q) md5W 3 fsInPlace
      (mkPyFile tgIMAGE fsInPlace ("/r/out/IMAGE/JPG/photo.jpg")) ("/r/out")
      fsInPlace (mkPyFile tgIMAGE fsInPlace ("/r/out/IMAGE/JPG/photo.jpg")) []
      (fun s => by show cleanSeg ("d41d8cd98f"); decide)
      (by decide) (by decide) (by decide) (by decide)⟩

/-- C3: `File.move_to(root, group)` with no collision at the destination
and a genuinely different destination directory performs exactly one move,
placing the file at `root/category/EXTENSION_UPPER/<basename>` when
`group=True` (`root/EXTENSION_UPPER/<basename>` when `group=False`); the
category directory (when grouping) and the extension directory exist
afterwards (created if they were missing), and the entry's path is updated
to the final destination. -/
theorem file_move_places_file (tg : List (String × List String))
    (md5 : String → String) (fuel : Nat) (fs : FS) (f : PyFile)
    (root : String) (group : Bool) (D : String) (fs' : FS) (f' : PyFile)
    (log : List (String × String))
    (hname : cleanSeg f.name) (hcat : cleanSeg f.category)
    (hext : cleanSeg (pyUpper f.extension))
    (hDdef : D = if group = true then joinP (joinP root f.category) (pyUpper f.extension)
      else joinP root (pyUpper f.extension))
    (hpsrc : f.path ∈ fs.files)
    (hnex : pyexists fs (joinP D f.name) = false)
    (hguard : dirnameS f.path ≠ D)
    (h : fileMoveTo (fun fs2 q => mkPyFile tg fs2 q) md5 fuel fs f root group =
      some (fs', f', log)) :
    log = [(f.path, joinP D f.name)] ∧
    f'.path = joinP D f.name ∧
    joinP D f.name ∈ fs'.files ∧
    isdir fs' D = true ∧
    (group = true → isdir fs' (joinP root f.category) = true) := by
  unfold fileMoveTo at h
  cases hset : setExtensionDestination md5 fuel fs f root group with
  | none => rw [hset] at h; exact absurd h (by simp)
  | some r =>
    obtain ⟨fsa, final⟩ := r
    rw [hset] at h
    dsimp only at h
    obtain ⟨ed, suitable, hbr, hfn, hfinal⟩ :=
      setExt_inv md5 fuel fs f root group fsa final hset
    have hedD : ed = D := by
      rcases hbr with ⟨hg, _, _, hed, _⟩ | ⟨hg, hed, _⟩
      · rw [hDdef, hg, if_pos rfl, hed]
      · rw [hDdef, hg, hed]
        simp
    have hfsa : fsa.files = fs.files ∧ isdir fsa ed = true ∧
        (∀ x ∈ fsa.dirs, x ∈ fs.dirs ∨ x = ed ∨
          (group = true ∧ x = joinP root f.category)) ∧
        (group = true → isdir fsa (joinP root f.category) = true) := by
      rcases hbr with ⟨hg, fsg, hgm, hed, hm⟩ | ⟨hg, hed, hm⟩
      · obtain ⟨hg1, hg2, hg3, hg4⟩ := mkdirIfAbsent_spec _ _ _ hgm
        obtain ⟨hm1, hm2, hm3, hm4⟩ := mkdirIfAbsent_spec _ _ _ hm
        refine ⟨by rw [hm1, hg1], hm2, ?_, ?_⟩
        · intro x hx
          rcases hm4 x hx with hx2 | hx2
          · rcases hg4 x hx2 with hx3 | hx3
            · exact Or.inl hx3
            · exact Or.inr (Or.inr ⟨hg, hx3⟩)
          · exact Or.inr (Or.inl hx2)
        · intro _
          unfold isdir
          have hmem : joinP root f.category ∈ fsa.dirs := by
            apply hm3
            unfold isdir at hg2
            simpa using hg2
          simpa using hmem
      · obtain ⟨hm1, hm2, hm3, hm4⟩ := mkdirIfAbsent_spec _ _ _ hm
        refine ⟨hm1, hm2, ?_, ?_⟩
        · intro x hx
          rcases hm4 x hx with hx2 | hx2
          · exact Or.inl hx2
          · exact Or.inr (Or.inl hx2)
        · intro hgc
          rw [hg] at hgc
          exact absurd hgc (by simp)
    obtain ⟨hfiles, hised, hdirs, hgroupdir⟩ := hfsa
    have hedgd : goodDir ed := by
      rcases hbr with ⟨_, _, _, hed, _⟩ | ⟨_, hed, _⟩
      · rw [hed]; exact joinP_goodDir _ _ hext
      · rw [hed]; exact joinP_goodDir _ _ hext
    have hednz : ed ≠ "" := by
      intro hx
      exact hedgd.1 ((strL_empty_iff ed).1 hx)
    have hlen1 : (strL ed).length < (strL (joinP ed f.name)).length :=
      length_joinP_lt ed f.name hedgd.1 hname
    have hcandne : joinP ed f.name ≠ ed := by
      intro hx
      rw [hx] at hlen1
      omega
    have hcandnrc : group = true → joinP ed f.name ≠ joinP root f.category := by
      intro hg hx
      have hed : ed = joinP (joinP root f.category) (pyUpper f.extension) := by
        rcases hbr with ⟨_, _, _, hed, _⟩ | ⟨hgf, _, _⟩
        · exact hed
        · rw [hg] at hgf; exact absurd hgf (by simp)
      have hrcne : strL (joinP root f.category) ≠ [] :=
        (joinP_goodDir root f.category hcat).1
      have hlen2 : (strL (joinP root f.category)).length < (strL ed).length := by
        rw [hed]
        exact length_joinP_lt _ _ hrcne hext
      rw [hx] at hlen1
      omega
    have hnexf : isfile fs (joinP D f.name) = false ∧ isdir fs (joinP D f.name) = false := by
      unfold pyexists at hnex
      exact Bool.or_eq_false_iff.1 hnex
    have hcand : pyexists fsa (joinP ed f.name) = false := by
      unfold pyexists
      rw [Bool.or_eq_false_iff]
      constructor
      · unfold isfile
        rw [hfiles]
        rw [hedD]
        unfold isfile at hnexf
        exact hnexf.1
      · unfold isdir
        cases hc : fsa.dirs.contains (joinP ed f.name)
        · rfl
        · exfalso
          have hmem : joinP ed f.name ∈ fsa.dirs := by simpa using hc
          rcases hdirs _ hmem with hx | hx | ⟨hg, hx⟩
          · have : isdir fs (joinP D f.name) = true := by
              unfold isdir
              rw [← hedD]
              simpa using hx
            rw [hnexf.2] at this
            exact absurd this (by simp)
          · exact hcandne hx
          · exact hcandnrc hg hx
    cases fuel with
    | zero => exact absurd hfn (by simp [findSuitableName])
    | succ k =>
      rw [findSuitableName_not_exists md5 fsa k (joinP ed f.name) 1 hcand] at hfn
      have hsv : suitable = f.name := by
        have := hfn
        simp only [Except.ok.injEq] at this
        rw [← this, basenameS_joinP _ _ hname]
      have hdn : dirnameS (joinP ed f.name) = ed := dirnameS_joinP _ _ hedgd hname
      have hfinal' : final = joinP ed f.name := by
        rw [hfinal, hdn, hsv]
      have hdf : dirnameS final = ed := by rw [hfinal']; exact hdn
      rw [if_neg (by rw [hdf, hedD]; exact hguard)] at h
      cases hmv : shutilMove fsa f.path final with
      | none => rw [hmv] at h; exact absurd h (by simp)
      | some r2 =>
        obtain ⟨fsb, real⟩ := r2
        rw [hmv] at h
        dsimp only at h
        simp only [Option.some.injEq, Prod.mk.injEq] at h
        obtain ⟨hb1, hb2, hb3⟩ := h
        have hsrcb : isfile fsa f.path = true := by
          unfold isfile
          rw [hfiles]
          simpa using hpsrc
        obtain ⟨hdirs_eq, hpres, hrealmem, hsub, hnodup, hrdst⟩ :=
          shutilMove_file fsa f.path final fsb real hsrcb hmv
        have hnotdir : isdir fsa final = false := by
          rw [hfinal']
          unfold pyexists at hcand
          exact (Bool.or_eq_false_iff.1 hcand).2
        have hrealf : real = final := hrdst hnotdir
        refine ⟨?_, ?_, ?_, ?_, ?_⟩
        · rw [← hb3, hfinal', hedD]
        · rw [← hb2, hfinal', hedD]
          rfl
        · rw [← hb1, ← hedD, ← hfinal']
          rw [← hrealf]
          exact hrealmem
        · rw [← hb1]
          unfold isdir
          rw [hdirs_eq]
          unfold isdir at hised
          rw [← hedD]
          exact hised
        · intro hg
          rw [← hb1]
          unfold isdir
          rw [hdirs_eq]
          unfold isdir at hgroupdir
          exact hgroupdir hg

/-- Witness for C3: moving `/r/a/photo.jpg` (`JPG` mapped to `IMAGE`) with
`group=True` into `/r/out` lands it at `/r/out/IMAGE/JPG/photo.jpg`, with
both intermediate directories present afterwards. -/
theorem file_move_places_file_witness :
    pyexists fsPhoto ("/r/out/IMAGE/JPG/photo.jpg") = false ∧
    ("/r/out/IMAGE/JPG/photo.jpg" ∈
        (FS.mk ["/r/out/IMAGE/JPG/photo.jpg"]
          ["/r/out/IMAGE/JPG", "/r/out/IMAGE", "/r", "/r/a", "/r/out"]).files ∧
      isdir (FS.mk ["/r/out/IMAGE/JPG/photo.jpg"]
          ["/r/out/IMAGE/JPG", "/r/out/IMAGE", "/r", "/r/a", "/r/out"])
        ("/r/out/IMAGE/JPG") = true ∧
      isdir (FS.mk ["/r/out/IMAGE/JPG/photo.jpg"]
          ["/r/out/IMAGE/JPG", "/r/out/IMAGE", "/r", "/r/a", "/r/out"])
        ("/r/out/IMAGE") = true) := by
  constructor
  · decide
  · have H := file_move_places_file tgIMAGE md5W 3 fsPhoto
      (mkPyFile tgIMAGE fsPhoto ("/r/a/photo.jpg")) ("/r/out") true
      ("/r/out/IMAGE/JPG")
      (FS.mk ["/r/out/IMAGE/JPG/photo.jpg"]
        ["/r/out/IMAGE/JPG", "/r/out/IMAGE", "/r", "/r/a", "/r/out"])
      (PyFile.mk ("/r/out/IMAGE/JPG/photo.jpg") ("photo.jpg") ("/r/out/IMAGE/JPG")
        false ("jpg") ("IMAGE") true)
      [("/r/a/photo.jpg", "/r/out/IMAGE/JPG/photo.jpg")]
      (by decide) (by decide) (by decide) (by decide) (by decide) (by decide)
      (by decide) (by decide)
    exact ⟨H.2.2.1, H.2.2.2.1, H.2.2.2.2 rfl⟩

/-- C4: `find_suitable_name` returns the basename unchanged when nothing
exists at the candidate path; with `report.txt` already present, resolving
`report.txt` yields `report - dup (1).txt`, and with that taken as well it
yields `report - dup (2).txt` — the existing suffix is replaced by the new
number, not stacked. -/
theorem find_suitable_name_numbering (md5 : String → String) :
    (∀ (fs : FS) (fuel : Nat) (p : String) (c : Nat), 0 < fuel →
      pyexists fs p = false → findSuitableName md5 fs fuel p c = .ok (basenameS p)) ∧
    findSuitableName md5 fsDupA 3 ("/d/report.txt") 1 = .ok ("report - dup (1).txt") ∧
    findSuitableName md5 fsDupB 3 ("/d/report.txt") 1 = .ok ("report - dup (2).txt") := by
  refine ⟨?_, ?_, ?_⟩
  · intro fs fuel p c hf hne
    cases fuel with
    | zero => omega
    | succ k => exact findSuitableName_not_exists md5 fs k p c hne
  · rfl
  · rfl

/-- Witness for C4 at a fresh name. -/
theorem find_suitable_name_numbering_witness :
    (0 < 1 ∧ pyexists fsDupA ("/d/new.txt") = false) ∧
    findSuitableName md5W fsDupA 1 ("/d/new.txt") 1 = .ok ("new.txt") :=
  ⟨⟨by decide, by decide⟩,
    (find_suitable_name_numbering md5W).1 fsDupA 1 ("/d/new.txt") 1 (by decide) (by decide)⟩

/-- C5: the resolver returns a result for every positive recursion budget
(the `RuntimeError` of a deeper call never escapes), and whenever the
recursive call on the next candidate hits the recursion limit (raises),
the caller returns the hex digest of the hash of the conflicting filename
instead of propagating the error. -/
theorem find_suitable_name_fallback (md5 : String → String) (fs : FS) :
    (∀ (fuel : Nat) (p : String) (c : Nat), 0 < fuel →
      ∃ s, findSuitableName md5 fs fuel p c = .ok s) ∧
    (∀ (fuel : Nat) (p : String) (c : Nat),
      pyexists fs p = true →
      findSuitableName md5 fs fuel (dupCandidate p c) (c + 1) = .error () →
      findSuitableName md5 fs (fuel + 1) p c = .ok (md5 (basenameS p))) := by
  constructor
  · intro fuel p c h
    exact findSuitableName_isOk md5 fs fuel p c h
  · intro fuel p c hex herr
    rw [findSuitableName, if_pos hex, herr]

/-- Witness for C5: with `a.txt` and `a - dup (1).txt` both present and no
budget left for the recursive call, the fallback digest is returned. -/
theorem find_suitable_name_fallback_witness :
    (pyexists fsFall ("/d/a.txt") = true ∧
      findSuitableName md5W fsFall 0 (dupCandidate ("/d/a.txt") 1) 2 = .error ()) ∧
    findSuitableName md5W fsFall 1 ("/d/a.txt") 1 = .ok ("d41d8cd98f") :=
  ⟨⟨by decide, rfl⟩,
    (find_suitable_name_fallback md5W fsFall).2 0 ("/d/a.txt") 1 (by decide) rfl⟩

/-- C8 (amended): `Folder.is_sorter_folder(path)` is true exactly when
`path` is an existing directory and either its basename is `isupper()` and
occurs verbatim in `typeList` or equals the literal `"FOLDERS"`, or its
basename is not `isupper()` and occurs verbatim among the category names.
(The branch taken depends on `str.isupper()` of the basename as written,
not on its upper-cased form.) -/
theorem is_sorter_folder_characterization (tg : List (String × List String))
    (tl : List String) (fs : FS) (path : String) :
    is_sorter_folder tg tl fs path = true ↔
      (isdir fs path = true ∧
        ((pyIsUpper (basenameS path) = true ∧
            (basenameS path ∈ tl ∨ basenameS path = "FOLDERS")) ∨
          (pyIsUpper (basenameS path) = false ∧
            basenameS path ∈ tg.map Prod.fst))) := by
  unfold is_sorter_folder
  by_cases hd : isdir fs path = true
  · rw [if_pos hd]
    by_cases hu : pyIsUpper (basenameS path) = true
    · rw [if_pos hu]
      simp [hd, hu]
    · rw [if_neg hu]
      have hu' : pyIsUpper (basenameS path) = false := by
        cases hx : pyIsUpper (basenameS path)
        · rfl
        · exact absurd hx hu
      simp [hd, hu']
  · rw [if_neg hd]
    simp [hd]

/-- C8 counterexample: with `typeList = ["JPG"]` and category names
`["image"]`, the existing directory `/r/jpg` satisfies the claimed
predicate (its upper-cased basename `JPG` is a known extension token), but
`is_sorter_folder` returns false, because `"jpg".isupper()` is false and
`"jpg"` is not a category name. -/
theorem is_sorter_folder_counterexample :
    claimedSorterFolder tgLower tlLower (FS.mk [] ["/r", "/r/jpg"]) ("/r/jpg") ∧
    is_sorter_folder tgLower tlLower (FS.mk [] ["/r", "/r/jpg"]) ("/r/jpg") = false :=
  ⟨by decide, by decide⟩

theorem dropWhile_head_false (p : Char → Bool) (l : List Char) (c : Char)
    (cs : List Char) (h : l.dropWhile p = c :: cs) : p c = false := by
  induction l with
  | nil => simp [List.dropWhile] at h
  | cons a as ih =>
    rw [List.dropWhile_cons] at h
    split at h
    · exact ih h
    · rename_i ha
      cases h
      cases hx : p c
      · rfl
      · exact absurd hx ha

theorem lastDot_decomp (cs : List Char)
    (h1 : (cs.reverse.takeWhile (fun c => c ≠ '.')).length ≠ cs.length) :
    cs.drop (cs.length - (cs.reverse.takeWhile (fun c => c ≠ '.')).length - 1) =
      '.' :: (cs.reverse.takeWhile (fun c => c ≠ '.')).reverse ∧
    cs.take (cs.length - (cs.reverse.takeWhile (fun c => c ≠ '.')).length - 1) ++
      '.' :: (cs.reverse.takeWhile (fun c => c ≠ '.')).reverse = cs ∧
    '.' ∉ (cs.reverse.takeWhile (fun c => c ≠ '.')).reverse := by
  have hsplit := List.takeWhile_append_dropWhile (fun c => decide (c ≠ '.')) cs.reverse
  have hne : cs.reverse.dropWhile (fun c => decide (c ≠ '.')) ≠ [] := by
    intro hx
    rw [hx, List.append_nil] at hsplit
    apply h1
    show (List.takeWhile (fun c => decide (c ≠ '.')) cs.reverse).length = cs.length
    rw [hsplit]
    simp
  obtain ⟨r, rest', hr⟩ : ∃ r rest',
      cs.reverse.dropWhile (fun c => decide (c ≠ '.')) = r :: rest' := by
    cases hx : cs.reverse.dropWhile (fun c => decide (c ≠ '.')) with
    | nil => exact absurd hx hne
    | cons r rest' => exact ⟨r, rest', rfl⟩
  have hrdot : r = '.' := by
    have := dropWhile_head_false _ _ _ _ hr
    simpa using this
  subst hrdot
  rw [hr] at hsplit
  generalize htw : List.takeWhile (fun c => decide (c ≠ '.')) cs.reverse = tw at hsplit ⊢
  have h2 : (tw ++ '.' :: rest').reverse = cs := by
    rw [hsplit, List.reverse_reverse]
  have hcs_eq : cs = rest'.reverse ++ '.' :: tw.reverse := by
    rw [← h2, List.reverse_append]
    simp
  have hlens : cs.length = rest'.length + 1 + tw.length := by
    conv_lhs => rw [hcs_eq]
    simp only [List.length_append, List.length_cons, List.length_reverse]
    omega
  have hk : cs.length - tw.length - 1 = rest'.reverse.length := by
    simp only [List.length_reverse]
    omega
  refine ⟨?_, ?_, ?_⟩
  · rw [hk]
    conv_lhs => rw [hcs_eq]
    rw [List.drop_left]
  · rw [hk]
    conv_lhs => rw [hcs_eq]
    rw [List.take_left]
    exact hcs_eq.symm
  · intro hm
    rw [← htw] at hm
    have := List.mem_takeWhile_imp (List.mem_reverse.1 hm)
    simp at this

theorem pySplitext_decomp (name : String) :
    (pySplitext name).2 = "" ∨
      ∃ tail, strL (pySplitext name).2 = '.' :: tail ∧ '.' ∉ tail ∧
        strL (pySplitext name).1 ++ '.' :: tail = strL name ∧
        (strL (pySplitext name).1).any (fun c => c ≠ '.') = true := by
  simp only [pySplitext]
  by_cases h1 : ((strL name).reverse.takeWhile (fun c => c ≠ '.')).length =
      (strL name).length
  · rw [if_pos h1]
    left
    rfl
  · rw [if_neg h1]
    obtain ⟨hdrop, htake, hmem⟩ := lastDot_decomp (strL name) h1
    by_cases h2 : (((strL name).take ((strL name).length -
        ((strL name).reverse.takeWhile (fun c => c ≠ '.')).length - 1)).any
        (fun c => c ≠ '.')) = true
    · rw [if_pos h2]
      right
      refine ⟨((strL name).reverse.takeWhile (fun c => c ≠ '.')).reverse, ?_, hmem, ?_, ?_⟩
      · show (strL name).drop _ = _
        exact hdrop
      · show (strL name).take _ ++ _ = strL name
        exact htake
      · exact h2
    · rw [if_neg h2]
      left
      rfl

theorem pyGetExtension_ne_empty (name : String) : pyGetExtension name ≠ "" := by
  simp only [pyGetExtension]
  split
  · decide
  · rename_i hx
    exact hx

theorem pyGetExtension_spec (name : String) :
    pyGetExtension name = "undefined" ∨
      ∃ root, root ++ '.' :: strL (pyGetExtension name) = strL name ∧
        '.' ∉ strL (pyGetExtension name) ∧ strL (pyGetExtension name) ≠ [] ∧
        root.any (fun c => c ≠ '.') = true := by
  rcases pySplitext_decomp name with hd | ⟨tail, he, hnm, hsum, hany⟩
  · left
    unfold pyGetExtension
    rw [hd]
    rfl
  · by_cases ht : tail = []
    · left
      unfold pyGetExtension
      have hd1 : strOf ((strL (pySplitext name).2).drop 1) = "" := by
        rw [he, ht]
        rfl
      rw [hd1, if_pos rfl]
    · right
      have hge : pyGetExtension name = strOf tail := by
        unfold pyGetExtension
        have hd1 : strOf ((strL (pySplitext name).2).drop 1) = strOf tail := by
          rw [he]
          rfl
        rw [hd1,
          if_neg (fun hx => ht (by simpa [strOf, strL] using congrArg strL hx))]
      refine ⟨strL (pySplitext name).1, ?_, ?_, ?_, hany⟩
      · rw [hge, strL_strOf]
        exact hsum
      · rw [hge, strL_strOf]
        exact hnm
      · rw [hge, strL_strOf]
        exact ht

theorem pyUpper_empty_iff (s : String) : pyUpper s = "" ↔ s = "" := by
  rw [strL_empty_iff (pyUpper s), strL_empty_iff s]
  show (strL s).map Char.toUpper = [] ↔ strL s = []
  simp

theorem getCategory_congr (tg : List (String × List String)) (e₁ e₂ : String)
    (h : pyUpper e₁ = pyUpper e₂) : getCategory tg e₁ = getCategory tg e₂ := by
  unfold getCategory
  by_cases h1 : e₁ = ""
  · have h2 : e₂ = "" := by
      rw [← pyUpper_empty_iff, ← h, pyUpper_empty_iff]
      exact h1
    rw [if_pos h1, if_pos h2]
  · have h2 : e₂ ≠ "" := by
      intro hx
      apply h1
      rw [← pyUpper_empty_iff, h, pyUpper_empty_iff]
      exact hx
    rw [if_neg h1, if_neg h2, h]

/-- C9 (amended): the `extension` attribute of a file entry is the token
after the last dot of the basename, kept verbatim (not lower-cased), with
the sentinel `"undefined"` when the basename has no extension in the
`splitext` sense; the `category` attribute is the first category of the
table whose token set contains the upper-cased extension, with sentinel
`"UNDEFINED"` when none does; and classification is case-insensitive:
extensions with the same upper-casing always classify identically. -/
theorem file_extension_category (tg : List (String × List String)) (fs : FS)
    (p : String) :
    ((mkPyFile tg fs p).extension = "undefined" ∨
      ∃ root, root ++ '.' :: strL ((mkPyFile tg fs p).extension) = strL (basenameS p) ∧
        '.' ∉ strL ((mkPyFile tg fs p).extension) ∧
        strL ((mkPyFile tg fs p).extension) ≠ [] ∧
        root.any (fun c => c ≠ '.') = true) ∧
    (mkPyFile tg fs p).category =
      (match tg.find? (fun kv => kv.2.contains (pyUpper ((mkPyFile tg fs p).extension))) with
        | some kv => kv.1
        | none => "UNDEFINED") ∧
    (∀ e₁ e₂ : String, pyUpper e₁ = pyUpper e₂ →
      getCategory tg e₁ = getCategory tg e₂) := by
  have hx : (mkPyFile tg fs p).extension = pyGetExtension (basenameS p) := rfl
  have hc : (mkPyFile tg fs p).category =
      getCategory tg (pyGetExtension (basenameS p)) := rfl
  refine ⟨?_, ?_, getCategory_congr tg⟩
  · rw [hx]
    exact pyGetExtension_spec (basenameS p)
  · rw [hc, hx]
    unfold getCategory
    rw [if_neg (pyGetExtension_ne_empty (basenameS p))]

/-- C9 counterexample: for the file `/r/a.JPG` the extension attribute is
the verbatim token `JPG`, not the lower-cased `jpg` claimed by the
specification (the code never lower-cases it). -/
theorem file_extension_counterexample :
    (mkPyFile tgIMAGE (FS.mk ["/r/a.JPG"] ["/r"]) ("/r/a.JPG")).extension = "JPG" ∧
    claimedExtension (basenameS ("/r/a.JPG")) = "jpg" ∧
    ("JPG" : String) ≠ "jpg" :=
  ⟨by decide, by decide, by decide⟩

/-- Witness for the case-insensitivity part of the amended C9. -/
theorem file_extension_category_witness :
    pyUpper ("jPg") = pyUpper ("jpg") ∧
    getCategory tgIMAGE ("jPg") = getCategory tgIMAGE ("jpg") :=
  ⟨by decide,
    (file_extension_category tgIMAGE fsPhoto ("/r/a/photo.jpg")).2.2 ("jPg") ("jpg")
      (by decide)⟩

/-- Witness for C1: merging `/r/a` (file `x.jpg`, subfolder `sub/y.jpg`)
into existing `/r/out/FOLDERS`: the subfolder file and the subfolder both
survive at their original paths. -/
theorem folder_merge_safety_witness :
    (isdir fsMerge ("/r/out/FOLDERS") = true ∧ fsMerge.files.Nodup) ∧
    ("/r/a/sub/y.jpg" ∈
        (FS.mk ["/r/out/IMAGE/JPG/x.jpg", "/r/a/sub/y.jpg"]
          ["/r/out/IMAGE/JPG", "/r/out/IMAGE", "/r", "/r/out", "/r/out/FOLDERS",
            "/r/a", "/r/a/sub"]).files ∧
      "/r/a/sub" ∈
        (FS.mk ["/r/out/IMAGE/JPG/x.jpg", "/r/a/sub/y.jpg"]
          ["/r/out/IMAGE/JPG", "/r/out/IMAGE", "/r", "/r/out", "/r/out/FOLDERS",
            "/r/a", "/r/a/sub"]).dirs) := by
  refine ⟨⟨by decide, by decide⟩, ?_⟩
  have H := folder_merge_safety tgIMAGE tlIMAGE md5W 3 fsMerge
    (mkPyFolder tgIMAGE tlIMAGE fsMerge ("/r/a")) ("/r/out/FOLDERS") ("/r/out") true
    (FS.mk ["/r/out/IMAGE/JPG/x.jpg", "/r/a/sub/y.jpg"]
      ["/r/out/IMAGE/JPG", "/r/out/IMAGE", "/r", "/r/out", "/r/out/FOLDERS",
        "/r/a", "/r/a/sub"])
    (PyFolder.mk ("/r/out/FOLDERS") ("FOLDERS") ("/r/out") false true true (""))
    [("/r/a/x.jpg", "/r/out/IMAGE/JPG/x.jpg")]
    (by decide) (by decide) (by decide) (by decide)
  exact ⟨H.2.1 ("/r/a/sub/y.jpg") (by decide) (by decide),
    H.2.2.1 ("/r/a/sub") (by decide) (by decide)⟩

/-- Witness for C7: one merge into existing `/r/Docs` leaves exactly one
marker there; a fast-path first creation leaves none. -/
theorem custom_marker_invariant_witness :
    ((isdir fsCustom ("/r/Docs") = true ∧ fsCustom.files.Nodup) ∧
      (FS.mk ["/r/Docs/sorter.sig", "/r/Docs/JPG/a.jpg"]
        ["/r/Docs/JPG", "/r", "/r/Docs"]).files.count (joinP ("/r/Docs") sigW) = 1) ∧
    (isdir fsCustomFast ("/r/Docs") = false ∧
      joinP ("/r/Docs") sigW ∉ (FS.mk ["/r/Docs/a.jpg"] ["/r", "/r/Docs"]).files) := by
  constructor
  · refine ⟨⟨by decide, by decide⟩, ?_⟩
    exact custom_marker_invariant.1 tgIMAGE tlIMAGE md5W 3 sigW fsCustom
      (mkPyCustomFolder tgIMAGE tlIMAGE fsCustom ("/r/g") ("docs")) ("/r/Docs") ("/r") true
      (FS.mk ["/r/Docs/sorter.sig", "/r/Docs/JPG/a.jpg"]
        ["/r/Docs/JPG", "/r", "/r/Docs"])
      (PyCustomFolder.mk
        (PyFolder.mk ("/r/Docs") ("Docs") ("/r") false true false ("")) ("Docs"))
      [("/r/g/a.jpg", "/r/Docs/JPG/a.jpg")]
      (by decide) (by decide) (by decide) (by decide)
  · refine ⟨by decide, ?_⟩
    exact custom_marker_invariant.2 tgIMAGE tlIMAGE md5W 3 sigW fsCustomFast
      (mkPyCustomFolder tgIMAGE tlIMAGE fsCustomFast ("/r/g") ("docs")) ("/r/Docs") ("/r") true
      (FS.mk ["/r/Docs/a.jpg"] ["/r", "/r/Docs"])
      (PyCustomFolder.mk
        (PyFolder.mk ("/r/Docs") ("Docs") ("/r") false true false ("")) ("Docs"))
      [("/r/g", "/r/Docs")]
      (by decide) (by decide) (by decide) (by decide) (by decide) (by decide)
      (by decide) (by decide) (by decide)

/-- Witness for C10: `.hidden` in the merged source survives and keeps the
source directory alive. -/
theorem glob_skips_dotfiles_witness :
    startsWithS (basenameS ("/r/a/.hidden")) (".") = true ∧
    ("/r/a/.hidden" ∈
        (FS.mk ["/r/out/IMAGE/JPG/x.jpg", "/r/a/.hidden"]
          ["/r/out/IMAGE/JPG", "/r/out/IMAGE", "/r", "/r/out", "/r/out/FOLDERS",
            "/r/a"]).files ∧
      "/r/a" ∈
        (FS.mk ["/r/out/IMAGE/JPG/x.jpg", "/r/a/.hidden"]
          ["/r/out/IMAGE/JPG", "/r/out/IMAGE", "/r", "/r/out", "/r/out/FOLDERS",
            "/r/a"]).dirs) := by
  refine ⟨by decide, ?_⟩
  have H := glob_skips_dotfiles.1 tgIMAGE tlIMAGE md5W 3 fsDotted
    (mkPyFolder tgIMAGE tlIMAGE fsDotted ("/r/a")) ("/r/out/FOLDERS") ("/r/out") true
    (FS.mk ["/r/out/IMAGE/JPG/x.jpg", "/r/a/.hidden"]
      ["/r/out/IMAGE/JPG", "/r/out/IMAGE", "/r", "/r/out", "/r/out/FOLDERS", "/r/a"])
    (PyFolder.mk ("/r/out/FOLDERS") ("FOLDERS") ("/r/out") false true true (""))
    [("/r/a/x.jpg", "/r/out/IMAGE/JPG/x.jpg")] ("/r/a/.hidden")
    (by decide) (by decide) (by decide) (by decide) (by decide) (by decide)
    (by decide) (by decide)
  exact ⟨H.2.1, H.2.2.2 (by decide)⟩
